import Mathlib

/-!
# Verification of the openclaw-mlx-audio supervisor core

Shallow embedding of the plugin's core components, translated from the
TypeScript sources:

* `src/config.ts` — configuration validation and port-binding resolution
  (`resolveConfig`, `resolvePortBinding`);
* `src/process-manager.ts` — the worker-process supervisor
  (`ProcessManager`): lifecycle queue, spawn/start/stop, crash-exit
  handler, restart budget;
* `src/health.ts` — the periodic health checker (`HealthChecker`);
* `src/proxy.ts` — the request gateway (`TtsProxy.forwardToUpstream`);
* `src/output-path.ts` — the secure output-path resolver
  (`resolveSecureOutputPath`);
* `index.ts` — the readiness orchestrator (`ensureServerReady`).

Stateful code is embedded as explicit state transition functions; the
concurrency-sensitive parts (promise-based de-duplication, the
lifecycle task queue) are embedded as small-step event systems over
which all interleavings are quantified.
-/

namespace MlxAudio

/-! ## Configuration (`src/config.ts`)

Ports are JavaScript numbers validated with `Number.isInteger`, so we
model them as `Int`.  Only the port-related fields and checks of
`resolveConfig` are embedded; the remaining validations (model string,
speed, sampling parameters, …) do not interact with port resolution. -/

structure PortConfig where
  port : Int
  proxyPort : Option Int
  deriving Repr, DecidableEq

/-- The port-related validation clauses of `resolveConfig`
(config.ts lines 125-133): `port` must be an integer in [1, 65535];
`proxyPort`, when provided, must be an integer in [1, 65535] and
different from `port`.  (`Number.isInteger` always holds for our `Int`
representation.) -/
def portConfigValid (c : PortConfig) : Bool :=
  (1 ≤ c.port && c.port ≤ 65535) &&
  (match c.proxyPort with
   | none => true
   | some pp => (1 ≤ pp && pp ≤ 65535) && !(c.port == pp))

inductive PortMode where
  | singlePort
  | legacyDualPort
  deriving Repr, DecidableEq

structure PortBinding where
  publicPort : Int
  serverPort : Int
  mode : PortMode
  deriving Repr, DecidableEq

/-- `resolvePortBinding` (config.ts lines 169-189).  If `proxyPort` is
set, legacy dual-port mode with `publicPort = proxyPort`,
`serverPort = port`.  Otherwise single-port mode: `serverPort` is
`port + 1` when `port < 65535`, else `port - 1`; a derived server port
outside [1, 65535] or equal to the public port raises an error. -/
def resolvePortBinding (c : PortConfig) : Except String PortBinding :=
  match c.proxyPort with
  | some pp =>
      .ok { publicPort := pp, serverPort := c.port, mode := .legacyDualPort }
  | none =>
      let publicPort := c.port
      let serverPort := if publicPort < 65535 then publicPort + 1 else publicPort - 1
      if serverPort < 1 || serverPort > 65535 || serverPort == publicPort then
        .error "[mlx-audio] Unable to derive internal server port"
      else
        .ok { publicPort := publicPort, serverPort := serverPort, mode := .singlePort }

/-! ## Health checker (`src/health.ts`)

`HealthChecker.check()` keeps one piece of state, the
`consecutive_failures` counter.  A probe outcome is `some true`
(HTTP 200), `some false` (non-200 / network error / timeout resolved
by `ping` itself), or `none` (`ping` threw); the `catch` block makes
thrown errors fall through to the failure path. -/

structure CheckResult where
  healthy : Bool
  firedUnhealthy : Bool
  loggedRecovery : Bool
  loggedFailureWarn : Bool
  failures : Nat
  deriving Repr, DecidableEq

/-- One `HealthChecker.check()` call (health.ts lines 444-464), as a
transition on the `consecutive_failures` counter.  On a successful
ping: log recovery iff the counter was non-zero, reset it, return
true.  Otherwise: increment; at ≥ 3 warn, invoke the unhealthy
callback and reset the counter; return false. -/
def healthCheckStep (failures : Nat) (ping : Option Bool) : CheckResult :=
  match ping with
  | some true =>
      { healthy := true, firedUnhealthy := false,
        loggedRecovery := failures > 0, loggedFailureWarn := false,
        failures := 0 }
  | _ =>
      let f := failures + 1
      if f ≥ 3 then
        { healthy := false, firedUnhealthy := true,
          loggedRecovery := false, loggedFailureWarn := true,
          failures := 0 }
      else
        { healthy := false, firedUnhealthy := false,
          loggedRecovery := false, loggedFailureWarn := false,
          failures := f }

/-- Fold a sequence of probe outcomes through `check()`, counting how
often the unhealthy callback fired. -/
def runHealthChecks (failures : Nat) : List (Option Bool) → Nat × Nat
  | [] => (failures, 0)
  | ping :: rest =>
      let r := healthCheckStep failures ping
      let (finalFailures, fired) := runHealthChecks r.failures rest
      (finalFailures, (if r.firedUnhealthy then 1 else 0) + fired)

/-- A run of `n` consecutive failed probes. -/
def failureRun (n : Nat) : List (Option Bool) :=
  List.replicate n (some false)

/-! ## Process supervisor (`src/process-manager.ts`)

`ProcessManager` owns one worker OS process.  We embed its mutable
fields as a state record, its methods as state transition functions,
and additionally track the multiset of live OS processes this manager
has spawned (`alive`) so that "at most one worker process is live" is
a provable statement rather than a typing artifact.  OS-level
nondeterminism (whether the `spawn` syscall throws) and the clock are
explicit parameters. -/

/-- Minimum uptime (ms) to consider a process healthy
(process-manager.ts `HEALTHY_UPTIME_MS`). -/
def HEALTHY_UPTIME_MS : Nat := 30000

structure PMConfig where
  restartOnCrash : Bool
  maxRestarts : Nat
  deriving Repr, DecidableEq

structure PMState where
  proc : Option Nat
  restarts : Nat
  lastError : Option String
  startedAt : Option Nat
  stopping : Bool
  restartBudgetExhausted : Bool
  restartTimerPending : Bool
  /-- Live OS processes spawned by this manager (pids). -/
  alive : List Nat
  /-- Fresh pid source for the OS model. -/
  nextPid : Nat
  /-- Number of `max-restarts` events emitted so far. -/
  maxRestartsEmitted : Nat
  deriving Repr, DecidableEq

def initPM : PMState :=
  { proc := none, restarts := 0, lastError := none, startedAt := none,
    stopping := false, restartBudgetExhausted := false,
    restartTimerPending := false, alive := [], nextPid := 0,
    maxRestartsEmitted := 0 }

/-- `clearRestartTimer` (process-manager.ts lines 714-718). -/
def clearRestartTimer (s : PMState) : PMState :=
  { s with restartTimerPending := false }

/-- `resetCrashCounter` (process-manager.ts lines 337-343). -/
def resetCrashCounter (s : PMState) : PMState :=
  { s with restarts := 0, lastError := none, restartBudgetExhausted := false }

/-- `consumeRestartBudget` (process-manager.ts lines 720-734).
Returns whether a unit of budget was granted, together with the
updated state.  When the budget is already exhausted it returns false
without emitting; when the counter has reached `maxRestarts` it marks
the budget exhausted, records the error and emits `max-restarts`;
otherwise it increments the counter. -/
def consumeRestartBudget (cfg : PMConfig) (s : PMState) (reason : String) :
    Bool × PMState :=
  if s.restartBudgetExhausted then
    (false, s)
  else if s.restarts ≥ cfg.maxRestarts then
    (false, { s with
      restartBudgetExhausted := true,
      lastError := some ("Restart limit reached (" ++ toString cfg.maxRestarts ++
        "). Last trigger: " ++ reason ++ "."),
      maxRestartsEmitted := s.maxRestartsEmitted + 1 })
  else
    (true, { s with restarts := s.restarts + 1 })

/-- `spawn` (process-manager.ts lines 521-624, state-effect part).
Skipped as a no-op returning false when a handle already exists;
otherwise clears any pending restart timer and attempts the OS spawn
(`osOk` = the syscall did not throw). -/
def pmSpawn (s : PMState) (osOk : Bool) (now : Nat) : Bool × PMState :=
  if s.proc.isSome then
    (false, s)
  else
    let s1 := clearRestartTimer s
    if osOk then
      let pid := s1.nextPid
      (true, { s1 with
        proc := some pid, alive := pid :: s1.alive, nextPid := pid + 1,
        startedAt := some now, lastError := none })
    else
      (false, { s1 with lastError := some "Failed to spawn" })

inductive StartOutcome where
  | alreadyRunning
  | started
  | failed
  deriving Repr, DecidableEq

/-- `startInternal` (process-manager.ts lines 641-656): clear the
restart timer, skip with a warning if a handle exists, otherwise
clear the stopping flag and spawn (memory check and stale-port
cleanup touch only processes outside this manager's `alive` set);
a failed spawn makes `start()` throw. -/
def startInternal (s : PMState) (osOk : Bool) (now : Nat) :
    PMState × StartOutcome :=
  let s := clearRestartTimer s
  if s.proc.isSome then
    (s, .alreadyRunning)
  else
    let s := { s with stopping := false }
    match pmSpawn s osOk now with
    | (true, s') => (s', .started)
    | (false, s') => (s', .failed)

/-- `stopInternal` (process-manager.ts lines 658-690): set the
stopping flag, clear the restart timer, and if a handle exists
terminate the process (graceful then forced) and clear the handle. -/
def stopInternal (s : PMState) : PMState :=
  let s := clearRestartTimer { s with stopping := true }
  match s.proc with
  | none => s
  | some p =>
      { s with proc := none, startedAt := none, alive := s.alive.erase p }

/-- The healthy-uptime block of the exit handler (process-manager.ts
lines 607-612): a crash after at least `HEALTHY_UPTIME_MS` of uptime
resets the restart counter and the exhausted flag before the restart
decision is taken. -/
def healthyUptimeReset (s : PMState) (uptime : Nat) : PMState :=
  if uptime ≥ HEALTHY_UPTIME_MS then
    { s with restarts := 0, restartBudgetExhausted := false, lastError := none }
  else s

/-- The restart decision of the exit handler (process-manager.ts
lines 614-621): if restart-on-crash is enabled and a unit of budget
is granted, schedule a delayed restart; otherwise record why not.
Returns whether a restart was scheduled. -/
def exitCrashDecision (cfg : PMConfig) (s : PMState) : PMState × Bool :=
  if cfg.restartOnCrash then
    match consumeRestartBudget cfg s "after crash" with
    | (true, s') => ({ s' with restartTimerPending := true }, true)
    | (false, s') => (s', false)
  else
    ({ s with lastError := some "Server exited and restartOnCrash is disabled." }, false)

/-- The `exit` event handler installed by `spawn` (process-manager.ts
lines 573-622).  The OS process `p` dies (removed from `alive`); exits
from a stale process (`proc ≠ p`) are ignored; a deliberate stop
(`stopping`) ends handling after clearing the handle; otherwise the
healthy-uptime reset runs before the restart decision.  Returns
whether a delayed restart was scheduled. -/
def onExit (cfg : PMConfig) (s : PMState) (p uptime : Nat) : PMState × Bool :=
  if p ∈ s.alive then
    let s := { s with alive := s.alive.erase p }
    if s.proc ≠ some p then
      (s, false)
    else
      let s := { s with proc := none, startedAt := none }
      if s.stopping then (s, false)
      else exitCrashDecision cfg (healthyUptimeReset s uptime)
  else (s, false)

/-- The delayed-restart timer callback (process-manager.ts
lines 699-712): when it fires it is cleared; it does nothing if a stop
happened meanwhile or a process is running; otherwise it runs
`start()` (which goes through the lifecycle queue to
`startInternal`). -/
def restartTimerFire (s : PMState) (osOk : Bool) (now : Nat) : PMState :=
  if s.restartTimerPending then
    let s := { s with restartTimerPending := false }
    if s.stopping || s.proc.isSome then s
    else (startInternal s osOk now).1
  else s

/-- `restart` (process-manager.ts lines 353-372), inside its lifecycle
queue slot: with `resetCrashCounter = true` (default) stop, reset the
counter, start; with `false` first consume a unit of restart budget
and abort if none is granted. -/
def restartOp (cfg : PMConfig) (s : PMState) (resetCounter osOk : Bool)
    (now : Nat) (reason : String) : PMState :=
  let s := clearRestartTimer s
  if resetCounter then
    (startInternal (resetCrashCounter (stopInternal s)) osOk now).1
  else
    match consumeRestartBudget cfg s reason with
    | (false, s') => s'
    | (true, s') => (startInternal (stopInternal s') osOk now).1

/-- Supervisor-level events (each runs inside the lifecycle queue or
as an OS/timer callback). -/
inductive PMEvent where
  | startEv (osOk : Bool) (now : Nat)
  | stopEv
  | exitEv (p uptime : Nat)
  | timerEv (osOk : Bool) (now : Nat)
  | resetEv
  | restartEv (resetCounter osOk : Bool) (now : Nat)
  deriving Repr, DecidableEq

def applyPMEvent (cfg : PMConfig) (s : PMState) : PMEvent → PMState
  | .startEv osOk now => (startInternal s osOk now).1
  | .stopEv => stopInternal s
  | .exitEv p uptime => (onExit cfg s p uptime).1
  | .timerEv osOk now => restartTimerFire s osOk now
  | .resetEv => resetCrashCounter s
  | .restartEv rc osOk now => restartOp cfg s rc osOk now "manual restart"

def runPM (cfg : PMConfig) (events : List PMEvent) : PMState :=
  events.foldl (applyPMEvent cfg) initPM

/-- The single-handle invariant: the handle is `none` exactly when no
spawned OS process is alive, and otherwise points at the one live
process. -/
def HandleInv (s : PMState) : Prop :=
  match s.proc with
  | none => s.alive = []
  | some p => s.alive = [p]

/-! ## Lifecycle task queue (`runLifecycleTask`)

`ProcessManager.runLifecycleTask` (process-manager.ts lines 626-639)
chains every submitted task onto `lifecycleQueue`: the submission
synchronously captures the previous queue promise and replaces it with
a fresh one whose `release` runs in the task's `finally`; the task
body runs only after `await previous` resolves, i.e. only after the
previously submitted task has finished (normally or exceptionally).

We index tasks by submission order and record each task's status.  A
`begin i` step is enabled exactly when task `i` is submitted, still
pending, and its predecessor has finished (`await previous`
resolved); `finish i` covers both normal completion and an exception
(the `finally` releases either way).  All interleavings are the
schedules of this event system. -/

inductive TaskStatus where
  | pending
  | running
  | done
  deriving Repr, DecidableEq

abbrev QState := List TaskStatus

inductive QEvent where
  | submit
  | begin (i : Nat)
  | finish (i : Nat)
  deriving Repr, DecidableEq

/-- Task `i` may start running: it is submitted and pending, and
`await previous` has resolved — the task submitted immediately before
it has finished. -/
def canBegin (l : QState) (i : Nat) : Bool :=
  l[i]? == some .pending && (i == 0 || l[i-1]? == some .done)

def applyQEvent (l : QState) : QEvent → Option QState
  | .submit => some (l ++ [.pending])
  | .begin i => if canBegin l i then some (l.set i .running) else none
  | .finish i => if l[i]? == some .running then some (l.set i .done) else none

def runQ (events : List QEvent) : Option QState :=
  events.foldlM applyQEvent ([] : QState)

def toStage : TaskStatus → Nat
  | .pending => 0
  | .running => 1
  | .done => 2

/-- Statuses are nonincreasing in submission order: a later task is
never further along than an earlier one. -/
def QMono (l : QState) : Prop :=
  ∀ (i j : Nat) (a b : TaskStatus),
    i ≤ j → l[i]? = some a → l[j]? = some b → toStage b ≤ toStage a

/-- At most one task is running. -/
def QUniq (l : QState) : Prop :=
  ∀ i j : Nat, l[i]? = some .running → l[j]? = some .running → i = j

/-! ## Readiness orchestrator (`ensureServerReady`, index.ts 404-479)

`ensureServerReady` runs on a single-threaded event loop.  Each call
executes a synchronous prefix atomically: check `procMgr.isRunning()`;
if not running, check the `ensureServerPromise` guard and either join
the pending attempt or install a new one (the async IIFE is assigned
to the guard with no intervening await).  The in-flight attempt then
proceeds through its own await points — environment preparation
(`ensurePythonRuntimeReady`), spawn (`procMgr.start()`), health poll —
and finally settles, at which point the `finally` block clears the
guard.  We model each await boundary as a separate event and quantify
over all schedules. -/

inductive EnsPhase where
  | idle
  | prepPending
  | spawnPending
  | healthPending
  deriving Repr, DecidableEq

structure EnsState where
  /-- `idle` = `ensureServerPromise === null`; otherwise the stage the
  in-flight attempt has reached. -/
  phase : EnsPhase
  /-- `procMgr.isRunning()`. -/
  running : Bool
  /-- Number of cold-start attempts installed into the guard. -/
  attempts : Nat
  /-- Number of environment preparations performed. -/
  preps : Nat
  /-- Number of spawns performed. -/
  spawns : Nat
  /-- Cold entries (`isRunning()` false at the synchronous prefix). -/
  enters : Nat
  /-- Cold entries that found the guard set and awaited the shared
  pending attempt. -/
  joined : Nat
  /-- Entries that took the already-running re-probe path. -/
  warmEntries : Nat
  /-- Outcome of the last settled attempt. -/
  lastOutcome : Option Bool
  deriving Repr, DecidableEq

def initEns : EnsState :=
  { phase := .idle, running := false, attempts := 0, preps := 0,
    spawns := 0, enters := 0, joined := 0, warmEntries := 0,
    lastOutcome := none }

inductive EnsEvent where
  /-- Synchronous prefix of a call with `isRunning()` false. -/
  | enter
  /-- Synchronous prefix of a call with `isRunning()` true
  (already-running path: bounded health re-probe). -/
  | enterWarm
  /-- The in-flight attempt completes `ensurePythonRuntimeReady`. -/
  | prep
  /-- The in-flight attempt completes `procMgr.start()`. -/
  | spawnE
  /-- The in-flight attempt settles; its `finally` clears the guard.
  `ok = false` covers a prep failure, a spawn failure, or the health
  timeout (after which the just-started process is stopped). -/
  | settle (ok : Bool)
  deriving Repr, DecidableEq

def applyEns (s : EnsState) : EnsEvent → Option EnsState
  | .enter =>
      if s.running then none
      else
        match s.phase with
        | .idle =>
            some { s with
              phase := .prepPending, attempts := s.attempts + 1,
              enters := s.enters + 1 }
        | _ => some { s with joined := s.joined + 1, enters := s.enters + 1 }
  | .enterWarm =>
      if s.running then some { s with warmEntries := s.warmEntries + 1 }
      else none
  | .prep =>
      match s.phase with
      | .prepPending => some { s with phase := .spawnPending, preps := s.preps + 1 }
      | _ => none
  | .spawnE =>
      match s.phase with
      | .spawnPending =>
          some { s with
            phase := .healthPending, spawns := s.spawns + 1, running := true }
      | _ => none
  | .settle ok =>
      match s.phase with
      | .idle => none
      | .healthPending =>
          some { s with phase := .idle, running := ok, lastOutcome := some ok }
      | _ =>
          if ok then none
          else
            some { s with
              phase := .idle, running := false, lastOutcome := some false }

def runEns (events : List EnsEvent) : Option EnsState :=
  events.foldlM applyEns initEns

/-- The events of one cold-start window: no settle yet. -/
def noSettle (events : List EnsEvent) : Bool :=
  events.all fun e =>
    match e with
    | .settle _ => false
    | _ => true

/-- Invariant of the cold-start window (no attempt has settled). -/
def EnsInv (s : EnsState) : Prop :=
  (s.phase = .idle ∧ s.attempts = 0 ∧ s.enters = 0 ∧ s.joined = 0 ∧
    s.preps = 0 ∧ s.spawns = 0 ∧ s.running = false) ∨
  (s.attempts = 1 ∧ s.enters = s.joined + 1 ∧
    ((s.phase = .prepPending ∧ s.preps = 0 ∧ s.spawns = 0 ∧ s.running = false) ∨
     (s.phase = .spawnPending ∧ s.preps = 1 ∧ s.spawns = 0 ∧ s.running = false) ∨
     (s.phase = .healthPending ∧ s.preps = 1 ∧ s.spawns = 1 ∧ s.running = true)))

/-! ## Health checker concurrency (`src/health.ts`)

The `HealthChecker` class has exactly two mutable fields, `timer` and
`consecutive_failures` — there is no in-flight probe field.  Every
`check()` call therefore invokes `this.ping()` unconditionally, and
`start()` schedules `check` with `setInterval(..., intervalMs)`, which
fires on the fixed period whether or not the previous probe has
settled.  We model the probe traffic of concurrent `check()` calls:
a `checkCall` event is a `check()` invocation reaching
`await this.ping()` (the code consults no guard on the way), and a
`probeSettle` event is an outstanding ping resolving. -/

structure HCConc where
  probesIssued : Nat
  probesInFlight : Nat
  maxOverlap : Nat
  deriving Repr, DecidableEq

inductive HCEvent where
  | checkCall
  | probeSettle
  deriving Repr, DecidableEq

/-- A `check()` invocation always issues a new ping (health.ts
lines 444-446: `const ok = await this.ping()` with no in-flight
check). -/
def stepCheckCall (s : HCConc) : HCConc :=
  { probesIssued := s.probesIssued + 1,
    probesInFlight := s.probesInFlight + 1,
    maxOverlap := max s.maxOverlap (s.probesInFlight + 1) }

def applyHC (s : HCConc) : HCEvent → Option HCConc
  | .checkCall => some (stepCheckCall s)
  | .probeSettle =>
      match s.probesInFlight with
      | 0 => none
      | n + 1 => some { s with probesInFlight := n }

def runHC (events : List HCEvent) : Option HCConc :=
  events.foldlM applyHC { probesIssued := 0, probesInFlight := 0, maxOverlap := 0 }

/-! ## Request gateway (`src/proxy.ts`, `forwardToUpstream`)

`TtsProxy.forwardToUpstream` (proxy.ts lines 193-278) handles the
upstream response: error/redirect statuses (≥ 300) are forwarded
immediately; for success statuses the `writeHead` is deferred until
the first `data` chunk, and an `end` with no data produces a 502
JSON error instead of an empty success.  We embed the handler as the
ordered list of actions it performs on the caller's response object.
HTTP bodies arrive as a list of (nonempty) data chunks followed by
either `end` or `error`; the caller's connection is open. -/

inductive UpTerm where
  | endOk
  | errEv
  deriving Repr, DecidableEq

inductive ErrBody where
  /-- `"mlx-audio server returned empty response"` + detail. -/
  | emptyUpstream
  /-- `"Upstream stream error"` + detail. -/
  | streamError
  deriving Repr, DecidableEq

inductive ResAction where
  | writeHead (status : Nat)
  | writeChunk (size : Nat)
  | endRes
  | endWithJson (body : ErrBody)
  | destroyRes
  deriving Repr, DecidableEq

/-- The success-status (`< 300`) handlers of `forwardToUpstream`:
the Boolean argument is the `headersSent` flag. -/
def successActions (statusCode : Nat) :
    List Nat → UpTerm → Bool → List ResAction
  | [], .endOk, false => [.writeHead 502, .endWithJson .emptyUpstream]
  | [], .endOk, true => [.endRes]
  | [], .errEv, false => [.writeHead 502, .endWithJson .streamError]
  | [], .errEv, true => [.destroyRes]
  | c :: rest, term, false =>
      .writeHead statusCode :: .writeChunk c ::
        successActions statusCode rest term true
  | c :: rest, term, true =>
      .writeChunk c :: successActions statusCode rest term true

/-- `forwardToUpstream`'s response relay (proxy.ts lines 210-258):
statuses ≥ 300 are piped through immediately (`writeHead` then body);
success statuses go through the deferred-header handlers. -/
def forwardToUpstream (statusCode : Nat) (chunks : List Nat)
    (term : UpTerm) : List ResAction :=
  if 300 ≤ statusCode then
    .writeHead statusCode :: chunks.map .writeChunk ++
      (match term with
       | .endOk => [.endRes]
       | .errEv => [])
  else
    successActions statusCode chunks term false

/-- The status of the first `writeHead` performed, if any. -/
def firstWriteHead : List ResAction → Option Nat
  | [] => none
  | .writeHead st :: _ => some st
  | _ :: rest => firstWriteHead rest

/-- Total body bytes written to the caller. -/
def bytesWritten : List ResAction → Nat
  | [] => 0
  | .writeChunk c :: rest => c + bytesWritten rest
  | _ :: rest => bytesWritten rest

/-! ## Readiness failure paths (`ensureServerReady`, index.ts 404-479)

The effect-level view of one `ensureServerReady()` call: which path it
takes and which side effects it performs, as a function of the
service flag, whether the worker process is running, and the outcomes
of environment preparation, spawn, and the bounded health poll.  In
the already-running path (index.ts 409-425) a health timeout throws
without touching the process; in the cold path (index.ts 432-472) the
`catch` block stops the just-spawned process (`started = true`)
before rethrowing. -/

structure EnsureEffects where
  threw : Bool
  timeoutError : Bool
  /-- `procMgr.stop()` invoked by the failure handler. -/
  stopCalled : Bool
  healthStarted : Bool
  /-- the bounded health poll (`waitForServerHealthy`) ran. -/
  polled : Bool
  procRunningAfter : Bool
  deriving Repr, DecidableEq

def ensureServerReadyRun (serviceRunning procRunning prepOk spawnOk healthOk : Bool) :
    EnsureEffects :=
  if !serviceRunning then
    { threw := true, timeoutError := false, stopCalled := false,
      healthStarted := false, polled := false, procRunningAfter := procRunning }
  else if procRunning then
    if healthOk then
      { threw := false, timeoutError := false, stopCalled := false,
        healthStarted := true, polled := true, procRunningAfter := true }
    else
      { threw := true, timeoutError := true, stopCalled := false,
        healthStarted := false, polled := true, procRunningAfter := true }
  else if !prepOk then
    { threw := true, timeoutError := false, stopCalled := false,
      healthStarted := false, polled := false, procRunningAfter := false }
  else if !spawnOk then
    { threw := true, timeoutError := false, stopCalled := false,
      healthStarted := false, polled := false, procRunningAfter := false }
  else if !healthOk then
    { threw := true, timeoutError := true, stopCalled := true,
      healthStarted := false, polled := true, procRunningAfter := false }
  else
    { threw := false, timeoutError := false, stopCalled := false,
      healthStarted := true, polled := true, procRunningAfter := true }

/-! ## Secure output path resolver (`src/output-path.ts`)

POSIX path strings are parsed into segment lists; an absolute,
normalized path is a `List String` of segments below the root.  The
configured roots (`tmpDir`, `systemTmpDir`, `outputDir`, `homeDir`)
are absolute at the call site (index.ts 264-268).  Node's string
helpers are re-implemented over `List Char` (Lean's built-in `String`
loops do not reduce in the kernel). -/

/-- `p.split("/")` on the character list. -/
def splitChars (sep : Char) : List Char → List (List Char)
  | [] => [[]]
  | c :: rest =>
      let r := splitChars sep rest
      if c = sep then [] :: r
      else
        match r with
        | [] => [[c]]
        | g :: gs => (c :: g) :: gs

/-- Path segments of a string: split on `/`, dropping empty parts
(`path.sep` splitting plus `filter(Boolean)`). -/
def strSegs (p : String) : List String :=
  ((splitChars '/' p.toList).map List.asString).filter (fun s => s ≠ "")

/-- `path.isAbsolute` (POSIX): starts with `/`. -/
def strIsAbsolute (p : String) : Bool :=
  match p.toList with
  | '/' :: _ => true
  | _ => false

/-- `relative.startsWith("..")` applied to the first segment of the
joined relative path (the joined string starts with its first
segment). -/
def strStartsWithDotDot (s : String) : Bool :=
  match s.toList with
  | '.' :: '.' :: _ => true
  | _ => false

/-- `outputPath.trim()`. -/
def strTrim (s : String) : String :=
  (((s.toList.dropWhile Char.isWhitespace).reverse.dropWhile
    Char.isWhitespace).reverse).asString

/-- Normalization of an absolute path's segments: `.` vanishes, `..`
pops (clamped at the root), as `path.normalize`/`path.resolve` do. -/
def normAbsSegs (segs : List String) : List String :=
  segs.foldl
    (fun acc seg =>
      if seg = "." then acc
      else if seg = ".." then acc.dropLast
      else acc ++ [seg]) []

/-- Normalization of a relative path's segments (leading `..`
preserved), as `path.join` does for relative results. -/
def normRelSegs (segs : List String) : List String :=
  segs.foldl
    (fun acc seg =>
      if seg = "." then acc
      else if seg = ".." then
        match acc.getLast? with
        | some l => if l = ".." then acc ++ [".."] else acc.dropLast
        | none => [".."]
      else acc ++ [seg]) []

/-- Render an absolute segment list back to a string. -/
def renderAbs (segs : List String) : String :=
  "/" ++ String.intercalate "/" segs

/-- `path.join(a, b)`: concatenate and normalize. -/
def joinPath (a b : String) : String :=
  if strIsAbsolute a then renderAbs (normAbsSegs (strSegs a ++ strSegs b))
  else String.intercalate "/" (normRelSegs (strSegs a ++ strSegs b))

/-- `path.resolve(p)` for absolute `p`, and `path.resolve(base, p)`
for relative `p` under an absolute `base`. -/
def resolvePath (base p : String) : List String :=
  if strIsAbsolute p then normAbsSegs (strSegs p)
  else normAbsSegs (strSegs base ++ strSegs p)

/-- `path.relative(from, to)` on normalized absolute segment lists:
strip the common prefix, then one `..` per remaining `from` segment
followed by the remaining `to` segments. -/
def relativeSegs : List String → List String → List String
  | f :: fs, t :: ts =>
      if f = t then relativeSegs fs ts
      else List.replicate (fs.length + 1) ".." ++ (t :: ts)
  | [], ts => ts
  | fs, [] => List.replicate fs.length ".."

/-- `isPathWithin` (output-path.ts lines 12-15): within iff the
relative path is empty or does not start with `..` (two absolute
POSIX paths never yield an absolute relative path). -/
def isPathWithin (base cand : List String) : Bool :=
  match relativeSegs base cand with
  | [] => true
  | first :: _ => !(strStartsWithDotDot first)

/-- `expandUserPath` (output-path.ts lines 17-21). -/
def expandUserPath (inputPath homeDir : String) : String :=
  if inputPath = "~" then homeDir
  else
    match inputPath.toList with
    | '~' :: '/' :: rest => joinPath homeDir rest.asString
    | _ => inputPath

structure OutputPathOptions where
  tmpDir : String
  systemTmpDir : String
  outputDir : String
  homeDir : String
  /-- `Date.now()`. -/
  now : Nat

/-- `resolveOutputPath` (output-path.ts lines 23-35).  A falsy input
(undefined or the empty string) yields the time-stamped default under
`tmpDir`; a whitespace-only input throws; otherwise the `~`-expanded
path is resolved absolutely, or against `outputDir` when relative. -/
def resolveOutputPath (outputPath : Option String)
    (opts : OutputPathOptions) : Except String (List String) :=
  let defaultPath :=
    normAbsSegs (strSegs opts.tmpDir ++
      strSegs ("mlx-audio-" ++ toString opts.now ++ ".mp3"))
  match outputPath with
  | none => .ok defaultPath
  | some p =>
      if p = "" then .ok defaultPath
      else
        let trimmed := strTrim p
        if trimmed = "" then .error "outputPath must be a non-empty string"
        else
          let expanded := expandUserPath trimmed opts.homeDir
          .ok (if strIsAbsolute expanded then resolvePath "/" expanded
               else resolvePath opts.outputDir expanded)

/-- `getAllowedRoots` (output-path.ts lines 37-39): the resolved
roots, de-duplicated preserving first occurrence (`new Set`). -/
def getAllowedRoots (opts : OutputPathOptions) : List (List String) :=
  [resolvePath "/" opts.tmpDir, resolvePath "/" opts.systemTmpDir,
   resolvePath "/" opts.outputDir].dedup

/-- `selectAllowedRoot` (output-path.ts lines 41-47). -/
def selectAllowedRoot (targetPath : List String)
    (opts : OutputPathOptions) : Except String (List String) :=
  match (getAllowedRoots opts).find? (fun root => isPathWithin root targetPath) with
  | some root => .ok root
  | none =>
      .error ("outputPath must be under " ++ opts.tmpDir ++ " or " ++ opts.outputDir)

/-! ### Filesystem model

A static snapshot: entries keyed by absolute segment path.  `lstat`
inspects the literal path (no traversal of the final component);
`stat` follows symlinks via `realpath`.  `mkdir` creates a directory
entry when the literal parent exists as a directory. -/

inductive FsEntry where
  | dir
  | file
  | symlink (target : String)
  | other
  deriving Repr, DecidableEq

structure Fs where
  entries : List (List String × FsEntry)
  deriving Repr, DecidableEq

def lstatFs (fs : Fs) (p : List String) : Option FsEntry :=
  if p = [] then some .dir
  else (fs.entries.find? (fun e => e.1 = p)).map (·.2)

def insertEntry (fs : Fs) (p : List String) (e : FsEntry) : Fs :=
  ⟨(p, e) :: fs.entries⟩

/-- `fs.mkdir(p)` (non-recursive): EEXIST if the path exists (any
kind), otherwise requires the parent to be an existing directory. -/
def mkdirOne (fs : Fs) (p : List String) : Except String Fs :=
  match lstatFs fs p with
  | some _ => .error "EEXIST"
  | none =>
      match lstatFs fs p.dropLast with
      | some .dir => .ok (insertEntry fs p .dir)
      | some _ => .error "ENOTDIR"
      | none => .error "ENOENT"

/-- `fs.mkdir(p, { recursive: true })`: create each missing prefix as
a directory.  (Modeled without symlink traversal: an existing
non-directory prefix is an error; the pipeline's own realpath
re-verification covers symlinked directories.) -/
def mkdirRecAux (fs : Fs) (built : List String) :
    List String → Except String Fs
  | [] => .ok fs
  | seg :: rest =>
      let cur := built ++ [seg]
      match lstatFs fs cur with
      | some .dir => mkdirRecAux fs cur rest
      | some _ => .error "ENOTDIR"
      | none => mkdirRecAux (insertEntry fs cur .dir) cur rest

def mkdirRecursive (fs : Fs) (p : List String) : Except String Fs :=
  mkdirRecAux fs [] p

/-- `fs.realpath`: resolve each segment left to right, following
symlinks (fuel bounds symlink chains, as the OS's ELOOP does). -/
def realpathAux (fs : Fs) : Nat → List String → List String → Option (List String)
  | 0, _, _ => none
  | _ + 1, cur, [] => some cur
  | fuel + 1, cur, seg :: rest =>
      match lstatFs fs (cur ++ [seg]) with
      | none => none
      | some (.symlink target) =>
          let tgtSegs :=
            if strIsAbsolute target then normAbsSegs (strSegs target)
            else normAbsSegs (cur ++ strSegs target)
          realpathAux fs fuel [] (tgtSegs ++ rest)
      | some _ => realpathAux fs fuel (cur ++ [seg]) rest

def realpathFs (fs : Fs) (p : List String) : Option (List String) :=
  realpathAux fs (40 * (p.length + fs.entries.length + 1)) [] p

/-- `fs.stat` (follows symlinks). -/
def statFs (fs : Fs) (p : List String) : Option FsEntry :=
  (realpathFs fs p).bind (lstatFs fs)

/-- The per-segment loop of `ensureSafeDirectoryTree` (output-path.ts
lines 67-87): try `mkdir`; on EEXIST, reject a symbolic link or
non-directory segment, otherwise continue. -/
def ensureSegments (fs : Fs) (current : List String) :
    List String → Except String Fs
  | [] => .ok fs
  | seg :: rest =>
      let cur := current ++ [seg]
      match mkdirOne fs cur with
      | .ok fs' => ensureSegments fs' cur rest
      | .error e =>
          if e = "EEXIST" then
            match lstatFs fs cur with
            | some (.symlink _) =>
                .error "outputPath contains a symbolic link segment"
            | some .dir => ensureSegments fs cur rest
            | some _ =>
                .error "outputPath parent includes a non-directory segment"
            | none => .error "ENOENT"
          else .error e

/-- `ensureSafeDirectoryTree` (output-path.ts lines 53-88). -/
def ensureSafeDirectoryTree (fs : Fs) (rootDir parentDir : List String) :
    Except String Fs :=
  match mkdirRecursive fs rootDir with
  | .error e => .error e
  | .ok fs1 =>
      match statFs fs1 rootDir with
      | some .dir =>
          let rel := relativeSegs rootDir parentDir
          match rel with
          | [] => .ok fs1
          | first :: _ =>
              if strStartsWithDotDot first then
                .error "outputPath resolves outside the allowed root"
              else ensureSegments fs1 rootDir rel
      | some _ => .error "outputPath root is not a directory"
      | none => .error "ENOENT"

/-- `assertRealPathWithinRoot` (output-path.ts lines 90-96). -/
def assertRealPathWithinRoot (fs : Fs) (rootDir parentDir : List String) :
    Except String Unit :=
  match realpathFs fs rootDir with
  | none => .error "ENOENT"
  | some rootReal =>
      match realpathFs fs parentDir with
      | none => .error "ENOENT"
      | some parentReal =>
          if isPathWithin rootReal parentReal then .ok ()
          else .error "outputPath resolves outside the allowed root via symbolic links"

/-- `assertTargetIsSafe` (output-path.ts lines 98-112). -/
def assertTargetIsSafe (fs : Fs) (targetPath : List String) :
    Except String Unit :=
  match lstatFs fs targetPath with
  | none => .ok ()
  | some (.symlink _) => .error "outputPath cannot be a symbolic link"
  | some .file => .ok ()
  | some _ => .error "outputPath must point to a regular file"

/-- `resolveSecureOutputPath` (output-path.ts lines 114-124): resolve,
check containment, build the parent directory chain safely, re-verify
the parent's real path, and validate the target; returns the target
with the updated filesystem. -/
def resolveSecureOutputPath (outputPath : Option String)
    (opts : OutputPathOptions) (fs : Fs) :
    Except String (List String × Fs) :=
  match resolveOutputPath outputPath opts with
  | .error e => .error e
  | .ok targetPath =>
      match selectAllowedRoot targetPath opts with
      | .error e => .error e
      | .ok allowedRoot =>
          let parentDir := targetPath.dropLast
          match ensureSafeDirectoryTree fs allowedRoot parentDir with
          | .error e => .error e
          | .ok fs1 =>
              match assertRealPathWithinRoot fs1 allowedRoot parentDir with
              | .error e => .error e
              | .ok _ =>
                  match assertTargetIsSafe fs1 targetPath with
                  | .error e => .error e
                  | .ok _ => .ok (targetPath, fs1)

end MlxAudio

/-! # Theorems -/

namespace MlxAudio

lemma runHealthChecks_failureRun (start n : Nat) (hs : start < 3) :
    runHealthChecks start (failureRun n) =
      ((start + n) % 3, (start + n) / 3 - start / 3) := by
  induction n generalizing start with
  | zero =>
      simp [failureRun, runHealthChecks, Nat.mod_eq_of_lt hs,
        Nat.div_eq_of_lt hs]
  | succ n ih =>
      have hstep : failureRun (n + 1) = some false :: failureRun n := by
        simp [failureRun, List.replicate_succ]
      rw [hstep]
      by_cases h2 : start = 2
      · subst h2
        have ihz := ih 0 (by norm_num)
        simp only [runHealthChecks, healthCheckStep]
        norm_num [ihz, Prod.mk.injEq]
        constructor
        · omega
        · omega
      · have hlt : start + 1 < 3 := by omega
        have ihs := ih (start + 1) hlt
        simp only [runHealthChecks, healthCheckStep]
        have : ¬ (start + 1 ≥ 3) := by omega
        simp only [if_neg this]
        rw [ihs]
        simp only [Prod.mk.injEq, if_false, Bool.false_eq_true, zero_add]
        constructor
        · omega
        · have d1 : (start + 1) / 3 = 0 := Nat.div_eq_of_lt hlt
          have d0 : start / 3 = 0 := Nat.div_eq_of_lt hs
          omega

/-- **C6.** For every sequence of `HealthChecker.check()` outcomes:
starting from a zero counter, a run of `n` consecutive failed probes
fires the unhealthy callback exactly `n / 3` times and leaves the
counter at `n % 3` — so the callback fires exactly once at the third
consecutive failure, the counter then resets, and a single further
failure does not re-fire it until three more consecutive failures
accumulate; and a successful probe resets the counter to zero and
logs recovery iff the counter was previously non-zero, firing no
callback. -/
theorem healthChecker_failure_episodes :
    (∀ n : Nat, runHealthChecks 0 (failureRun n) = (n % 3, n / 3)) ∧
    (runHealthChecks 0 (failureRun 3) = (0, 1)) ∧
    (runHealthChecks 0 (failureRun 4) = (1, 1)) ∧
    (runHealthChecks 0 (failureRun 6) = (0, 2)) ∧
    (∀ f : Nat, healthCheckStep f (some true) =
      { healthy := true, firedUnhealthy := false,
        loggedRecovery := f > 0, loggedFailureWarn := false,
        failures := 0 }) := by
  refine ⟨?_, by decide, by decide, by decide, fun f => rfl⟩
  intro n
  have := runHealthChecks_failureRun 0 n (by norm_num)
  simpa using this

/-- **C10.** For every configuration passing `resolveConfig`'s port
checks: with `proxyPort` set, `resolvePortBinding` returns
legacy-dual-port mode with `publicPort = proxyPort` and
`serverPort = port`; otherwise single-port mode with
`publicPort = port` and `serverPort = port + 1`, except `port = 65535`
where `serverPort = 65534`; and in every case the returned ports
differ. -/
theorem resolvePortBinding_spec (c : PortConfig) (hv : portConfigValid c = true) :
    ∃ b : PortBinding, resolvePortBinding c = .ok b ∧
      (∀ pp, c.proxyPort = some pp →
        b.mode = .legacyDualPort ∧ b.publicPort = pp ∧ b.serverPort = c.port) ∧
      (c.proxyPort = none →
        b.mode = .singlePort ∧ b.publicPort = c.port ∧
        b.serverPort = (if c.port = 65535 then 65534 else c.port + 1)) ∧
      b.publicPort ≠ b.serverPort := by
  simp only [portConfigValid, Bool.and_eq_true, decide_eq_true_eq,
    Bool.not_eq_true'] at hv
  cases hpp : c.proxyPort with
  | some pp =>
      rw [hpp] at hv
      refine ⟨{ publicPort := pp, serverPort := c.port, mode := .legacyDualPort },
        by simp [resolvePortBinding, hpp], ?_, ?_, ?_⟩
      · intro pp' hpp'
        cases hpp'
        exact ⟨rfl, rfl, rfl⟩
      · intro h
        exact Option.noConfusion h
      · simp only [ne_eq]
        intro h
        have hne : (c.port == pp) = false := by
          rcases hv with ⟨-, hrest⟩
          simp only [Bool.and_eq_true, Bool.not_eq_true'] at hrest
          exact hrest.2
        have hne' : c.port ≠ pp := by simpa using hne
        exact hne' h.symm
  | none =>
      have h1 : 1 ≤ c.port := hv.1.1
      have h2 : c.port ≤ 65535 := hv.1.2
      by_cases hc : c.port < 65535
      · have hguard : ¬(c.port + 1 < 1 || c.port + 1 > 65535 || c.port + 1 == c.port) = true := by
          simp only [Bool.or_eq_true, decide_eq_true_eq, beq_iff_eq]
          push_neg
          omega
        refine ⟨{ publicPort := c.port, serverPort := c.port + 1, mode := .singlePort },
          ?_, ?_, ?_, ?_⟩
        · simp only [resolvePortBinding, hpp, if_pos hc]
          rw [if_neg hguard]
        · intro pp hpp'
          exact Option.noConfusion hpp'
        · intro _
          refine ⟨rfl, rfl, ?_⟩
          have : c.port ≠ 65535 := by omega
          simp [this]
        · simp only [ne_eq]
          omega
      · have heq : c.port = 65535 := by omega
        have hguard : ¬(c.port - 1 < 1 || c.port - 1 > 65535 || c.port - 1 == c.port) = true := by
          simp only [Bool.or_eq_true, decide_eq_true_eq, beq_iff_eq]
          push_neg
          omega
        refine ⟨{ publicPort := c.port, serverPort := c.port - 1, mode := .singlePort },
          ?_, ?_, ?_, ?_⟩
        · simp only [resolvePortBinding, hpp, if_neg hc]
          rw [if_neg hguard]
        · intro pp hpp'
          exact Option.noConfusion hpp'
        · intro _
          refine ⟨rfl, rfl, ?_⟩
          simp only [heq]
          norm_num
        · simp only [ne_eq]
          omega

/-! ### Process supervisor: single-handle invariant (C3) -/

lemma consumeRestartBudget_proc_alive (cfg : PMConfig) (s : PMState) (r : String) :
    (consumeRestartBudget cfg s r).2.proc = s.proc ∧
    (consumeRestartBudget cfg s r).2.alive = s.alive := by
  unfold consumeRestartBudget
  split
  · exact ⟨rfl, rfl⟩
  · split
    · exact ⟨rfl, rfl⟩
    · exact ⟨rfl, rfl⟩

lemma exitCrashDecision_proc_alive (cfg : PMConfig) (s : PMState) :
    (exitCrashDecision cfg s).1.proc = s.proc ∧
    (exitCrashDecision cfg s).1.alive = s.alive := by
  unfold exitCrashDecision
  split
  · rcases h : consumeRestartBudget cfg s "after crash" with ⟨granted, s'⟩
    have hpa := consumeRestartBudget_proc_alive cfg s "after crash"
    rw [h] at hpa
    cases granted
    · simpa using hpa
    · simpa using hpa
  · exact ⟨rfl, rfl⟩

lemma healthyUptimeReset_proc_alive (s : PMState) (uptime : Nat) :
    (healthyUptimeReset s uptime).proc = s.proc ∧
    (healthyUptimeReset s uptime).alive = s.alive := by
  unfold healthyUptimeReset
  split
  · exact ⟨rfl, rfl⟩
  · exact ⟨rfl, rfl⟩

lemma handleInv_pmSpawn (s : PMState) (osOk : Bool) (now : Nat)
    (h : HandleInv s) : HandleInv (pmSpawn s osOk now).2 := by
  unfold pmSpawn
  cases hp : s.proc with
  | some p =>
      simp only [hp, Option.isSome_some, if_pos]
      exact h
  | none =>
      have halive : s.alive = [] := by
        unfold HandleInv at h
        rw [hp] at h
        exact h
      simp only [hp, Option.isSome_none, Bool.false_eq_true, if_false]
      cases osOk
      · simp only [Bool.false_eq_true, if_false]
        unfold HandleInv clearRestartTimer
        simp [hp, halive]
      · simp only [if_true]
        unfold HandleInv clearRestartTimer
        simp [halive]

lemma handleInv_startInternal (s : PMState) (osOk : Bool) (now : Nat)
    (h : HandleInv s) : HandleInv (startInternal s osOk now).1 := by
  unfold startInternal
  have hclear : HandleInv (clearRestartTimer s) := by
    unfold HandleInv clearRestartTimer at *
    exact h
  dsimp only
  split
  · exact hclear
  · have hstop : HandleInv { clearRestartTimer s with stopping := false } := by
      unfold HandleInv clearRestartTimer at *
      exact h
    have := handleInv_pmSpawn { clearRestartTimer s with stopping := false } osOk now hstop
    rcases hsp : pmSpawn { clearRestartTimer s with stopping := false } osOk now with ⟨ok, s'⟩
    rw [hsp] at this
    cases ok
    · simpa using this
    · simpa using this

lemma handleInv_stopInternal (s : PMState) (h : HandleInv s) :
    HandleInv (stopInternal s) := by
  unfold stopInternal
  cases hp : s.proc with
  | none =>
      unfold HandleInv clearRestartTimer at *
      simp only [hp] at h ⊢
      simp [hp, h]
  | some p =>
      have halive : s.alive = [p] := by
        unfold HandleInv at h
        rw [hp] at h
        exact h
      unfold HandleInv clearRestartTimer
      simp [hp, halive]

lemma handleInv_onExit (cfg : PMConfig) (s : PMState) (p uptime : Nat)
    (h : HandleInv s) : HandleInv (onExit cfg s p uptime).1 := by
  unfold onExit
  split
  · rename_i hmem
    cases hp : s.proc with
    | none =>
        have halive : s.alive = [] := by
          unfold HandleInv at h
          rw [hp] at h
          exact h
        rw [halive] at hmem
        exact absurd hmem (by simp)
    | some q =>
        have halive : s.alive = [q] := by
          unfold HandleInv at h
          rw [hp] at h
          exact h
        have hpq : p = q := by
          rw [halive] at hmem
          simpa using hmem
        subst hpq
        have herase : s.alive.erase p = [] := by
          rw [halive]
          simp
        dsimp only
        split
        · rename_i hne
          exact absurd (by simp [hp]) hne
        · split
          · unfold HandleInv
            simp [herase]
          · set s2 : PMState :=
              { s with alive := s.alive.erase p, proc := none, startedAt := none }
            have h2 : HandleInv s2 := by
              unfold HandleInv
              simp [s2, herase]
            have hh := healthyUptimeReset_proc_alive s2 uptime
            have hd := exitCrashDecision_proc_alive cfg (healthyUptimeReset s2 uptime)
            unfold HandleInv at h2 ⊢
            rcases hh with ⟨hh1, hh2⟩
            rcases hd with ⟨hd1, hd2⟩
            rw [hd1, hd2, hh1, hh2]
            exact h2
  · exact h

lemma handleInv_restartTimerFire (s : PMState) (osOk : Bool) (now : Nat)
    (h : HandleInv s) : HandleInv (restartTimerFire s osOk now) := by
  unfold restartTimerFire
  split
  · dsimp only
    split
    · unfold HandleInv at *
      exact h
    · exact handleInv_startInternal _ osOk now (by unfold HandleInv at *; exact h)
  · exact h

lemma handleInv_resetCrashCounter (s : PMState) (h : HandleInv s) :
    HandleInv (resetCrashCounter s) := by
  unfold HandleInv resetCrashCounter at *
  exact h

lemma handleInv_restartOp (cfg : PMConfig) (s : PMState)
    (resetCounter osOk : Bool) (now : Nat) (reason : String)
    (h : HandleInv s) : HandleInv (restartOp cfg s resetCounter osOk now reason) := by
  unfold restartOp
  have hclear : HandleInv (clearRestartTimer s) := by
    unfold HandleInv clearRestartTimer at *
    exact h
  split
  · exact handleInv_startInternal _ osOk now
      (handleInv_resetCrashCounter _ (handleInv_stopInternal _ hclear))
  · rcases hc : consumeRestartBudget cfg (clearRestartTimer s) reason with ⟨granted, s'⟩
    have hpa := consumeRestartBudget_proc_alive cfg (clearRestartTimer s) reason
    rw [hc] at hpa
    have hs' : HandleInv s' := by
      unfold HandleInv at hclear ⊢
      rw [hpa.1, hpa.2]
      exact hclear
    dsimp only
    rw [hc]
    cases granted
    · exact hs'
    · exact handleInv_startInternal (stopInternal s') osOk now
        (handleInv_stopInternal s' hs')

lemma handleInv_apply (cfg : PMConfig) (s : PMState) (e : PMEvent)
    (h : HandleInv s) : HandleInv (applyPMEvent cfg s e) := by
  cases e with
  | startEv osOk now => exact handleInv_startInternal s osOk now h
  | stopEv => exact handleInv_stopInternal s h
  | exitEv p uptime => exact handleInv_onExit cfg s p uptime h
  | timerEv osOk now => exact handleInv_restartTimerFire s osOk now h
  | resetEv => exact handleInv_resetCrashCounter s h
  | restartEv rc osOk now => exact handleInv_restartOp cfg s rc osOk now _ h

lemma handleInv_foldl (cfg : PMConfig) (events : List PMEvent) :
    ∀ t : PMState, HandleInv t →
      HandleInv (events.foldl (applyPMEvent cfg) t) := by
  induction events with
  | nil => intro t ht; exact ht
  | cons e rest ih =>
      intro t ht
      rw [List.foldl_cons]
      exact ih _ (handleInv_apply cfg t e ht)

lemma handleInv_runPM (cfg : PMConfig) (events : List PMEvent) :
    HandleInv (runPM cfg events) := by
  have hinit : HandleInv initPM := by
    unfold HandleInv initPM
    simp
  exact handleInv_foldl cfg events initPM hinit

/-- **C3.** At every state of the `ProcessManager` reachable by any
sequence of lifecycle events from the initial state, at most one
spawned worker OS process is live (the handle, when set, points at
exactly that process); and a `startInternal` or `spawn` issued while
a handle exists is skipped as a logged no-op: `spawn` returns false
leaving the state untouched, and `startInternal` reports
already-running having only cleared the pending restart timer —
neither creates or queues a second process. -/
theorem processManager_single_live_handle :
    (∀ (cfg : PMConfig) (events : List PMEvent),
      (runPM cfg events).alive.length ≤ 1 ∧ HandleInv (runPM cfg events)) ∧
    (∀ (s : PMState) (p : Nat) (osOk : Bool) (now : Nat), s.proc = some p →
      pmSpawn s osOk now = (false, s)) ∧
    (∀ (s : PMState) (p : Nat) (osOk : Bool) (now : Nat), s.proc = some p →
      startInternal s osOk now = (clearRestartTimer s, .alreadyRunning) ∧
      (startInternal s osOk now).1.alive = s.alive ∧
      (startInternal s osOk now).1.proc = s.proc) := by
  refine ⟨?_, ?_, ?_⟩
  · intro cfg events
    have h := handleInv_runPM cfg events
    refine ⟨?_, h⟩
    unfold HandleInv at h
    cases hp : (runPM cfg events).proc with
    | none => rw [hp] at h; simp [h]
    | some p => rw [hp] at h; simp [h]
  · intro s p osOk now hp
    unfold pmSpawn
    simp [hp]
  · intro s p osOk now hp
    have hp' : (clearRestartTimer s).proc = some p := hp
    constructor
    · unfold startInternal
      simp [hp', Option.isSome]
    · unfold startInternal clearRestartTimer
      simp [hp]

/-- Witness for C3 at a concrete event sequence and state. -/
theorem processManager_single_live_handle_witness :
    (runPM { restartOnCrash := true, maxRestarts := 3 }
        [.startEv true 0, .startEv true 5]).alive.length ≤ 1 ∧
    pmSpawn { initPM with proc := some 7, alive := [7] } true 0 =
      (false, { initPM with proc := some 7, alive := [7] }) ∧
    startInternal { initPM with proc := some 7, alive := [7] } true 0 =
      (clearRestartTimer { initPM with proc := some 7, alive := [7] },
        .alreadyRunning) := by
  refine ⟨(processManager_single_live_handle.1
    { restartOnCrash := true, maxRestarts := 3 }
    [.startEv true 0, .startEv true 5]).1, ?_, ?_⟩
  · exact processManager_single_live_handle.2.1
      { initPM with proc := some 7, alive := [7] } 7 true 0 rfl
  · exact (processManager_single_live_handle.2.2
      { initPM with proc := some 7, alive := [7] } 7 true 0 rfl).1

/-! ### Lifecycle queue serialization (C2) -/

lemma getElem?_append_single (l : List TaskStatus) (x : TaskStatus) (j : Nat) :
    (l ++ [x])[j]? = if j < l.length then l[j]?
      else if j = l.length then some x else none := by
  rw [List.getElem?_append]
  by_cases h : j < l.length
  · rw [if_pos h, if_pos h]
  · rw [if_neg h, if_neg h]
    by_cases h2 : j = l.length
    · rw [if_pos h2]
      have hz : j - l.length = 0 := by omega
      simp [hz]
    · rw [if_neg h2]
      have hpos : 0 < j - l.length := by omega
      rcases Nat.exists_eq_add_of_lt hpos with ⟨k, hk⟩
      have hk' : j - l.length = k + 1 := by omega
      simp [hk']

lemma qInv_submit (l : QState) (h : QMono l ∧ QUniq l) :
    QMono (l ++ [.pending]) ∧ QUniq (l ++ [.pending]) := by
  obtain ⟨hm, hu⟩ := h
  constructor
  · unfold QMono
    intro i j a b hij ha hb
    rw [getElem?_append_single] at ha hb
    by_cases hjl : j < l.length
    · rw [if_pos hjl] at hb
      have hil : i < l.length := by omega
      rw [if_pos hil] at ha
      exact hm i j a b hij ha hb
    · rw [if_neg hjl] at hb
      by_cases hje : j = l.length
      · rw [if_pos hje] at hb
        cases hb
        simp [toStage]
      · rw [if_neg hje] at hb
        cases hb
  · intro i j ha hb
    rw [getElem?_append_single] at ha hb
    by_cases hil : i < l.length
    · rw [if_pos hil] at ha
      by_cases hjl : j < l.length
      · rw [if_pos hjl] at hb
        exact hu i j ha hb
      · rw [if_neg hjl] at hb
        by_cases hje : j = l.length
        · rw [if_pos hje] at hb; cases hb
        · rw [if_neg hje] at hb; cases hb
    · rw [if_neg hil] at ha
      by_cases hie : i = l.length
      · rw [if_pos hie] at ha; cases ha
      · rw [if_neg hie] at ha; cases ha

lemma qInv_begin (l : QState) (i : Nat) (h : QMono l ∧ QUniq l)
    (hc : canBegin l i = true) :
    QMono (l.set i .running) ∧ QUniq (l.set i .running) := by
  obtain ⟨hm, hu⟩ := h
  have hc' := hc
  unfold canBegin at hc'
  rw [Bool.and_eq_true] at hc'
  obtain ⟨hpend, hprev⟩ := hc'
  have hpend' : l[i]? = some .pending := by
    simpa using hpend
  have hilen : i < l.length := by
    by_contra hge
    rw [List.getElem?_eq_none (by omega)] at hpend'
    cases hpend'
  have hprev' : i = 0 ∨ l[i-1]? = some .done := by
    rw [Bool.or_eq_true] at hprev
    rcases hprev with h0 | hd
    · exact Or.inl (by simpa using h0)
    · exact Or.inr (by simpa using hd)
  constructor
  · unfold QMono
    intro k j a b hkj ha hb
    rw [List.getElem?_set] at ha hb
    by_cases hki : i = k <;> by_cases hji : i = j
    · subst hki; subst hji
      rw [if_pos rfl, if_pos hilen] at ha hb
      cases ha; cases hb
      simp
    · subst hki
      rw [if_pos rfl, if_pos hilen] at ha
      cases ha
      rw [if_neg hji] at hb
      have := hm i j .pending b (by omega) hpend' hb
      simp only [toStage] at this ⊢
      omega
    · subst hji
      rw [if_pos rfl, if_pos hilen] at hb
      cases hb
      rw [if_neg hki] at ha
      rcases hprev' with h0 | hd
      · omega
      · have hki' : k ≤ i - 1 := by omega
        have := hm k (i-1) a .done hki' ha hd
        simp only [toStage] at this ⊢
        omega
    · rw [if_neg hki] at ha
      rw [if_neg hji] at hb
      exact hm k j a b hkj ha hb
  · intro k j ha hb
    rw [List.getElem?_set] at ha hb
    by_cases hki : i = k <;> by_cases hji : i = j
    · omega
    · subst hki
      rw [if_neg hji] at hb
      by_cases hij : j < i
      · rcases hprev' with h0 | hd
        · omega
        · have := hm j (i-1) .running .done (by omega) hb hd
          simp [toStage] at this
      · have := hm i j .pending .running (by omega) hpend' hb
        simp [toStage] at this
    · subst hji
      rw [if_neg hki] at ha
      by_cases hij : k < i
      · rcases hprev' with h0 | hd
        · omega
        · have := hm k (i-1) .running .done (by omega) ha hd
          simp [toStage] at this
      · have := hm i k .pending .running (by omega) hpend' ha
        simp [toStage] at this
    · rw [if_neg hki] at ha
      rw [if_neg hji] at hb
      exact hu k j ha hb

lemma qInv_finish (l : QState) (i : Nat) (h : QMono l ∧ QUniq l)
    (hr : l[i]? = some .running) :
    QMono (l.set i .done) ∧ QUniq (l.set i .done) := by
  obtain ⟨hm, hu⟩ := h
  have hilen : i < l.length := by
    by_contra hge
    rw [List.getElem?_eq_none (by omega)] at hr
    cases hr
  constructor
  · unfold QMono
    intro k j a b hkj ha hb
    rw [List.getElem?_set] at ha hb
    by_cases hki : i = k <;> by_cases hji : i = j
    · subst hki; subst hji
      rw [if_pos rfl, if_pos hilen] at ha hb
      cases ha; cases hb
      simp
    · subst hki
      rw [if_pos rfl, if_pos hilen] at ha
      cases ha
      rw [if_neg hji] at hb
      have := hm i j .running b (by omega) hr hb
      simp only [toStage] at this ⊢
      omega
    · subst hji
      rw [if_pos rfl, if_pos hilen] at hb
      cases hb
      rw [if_neg hki] at ha
      have hge := hm k i a .running (by omega) ha hr
      cases a with
      | pending => simp [toStage] at hge
      | running => exact absurd (hu k i ha hr).symm hki
      | done => simp [toStage]
    · rw [if_neg hki] at ha
      rw [if_neg hji] at hb
      exact hm k j a b hkj ha hb
  · intro k j ha hb
    rw [List.getElem?_set] at ha hb
    by_cases hki : i = k <;> by_cases hji : i = j
    · omega
    · subst hki
      rw [if_pos rfl, if_pos hilen] at ha
      cases ha
    · subst hji
      rw [if_pos rfl, if_pos hilen] at hb
      cases hb
    · rw [if_neg hki] at ha
      rw [if_neg hji] at hb
      exact hu k j ha hb

lemma qInv_apply (l : QState) (e : QEvent) (l' : QState)
    (h : QMono l ∧ QUniq l) (happ : applyQEvent l e = some l') :
    QMono l' ∧ QUniq l' := by
  cases e with
  | submit =>
      simp only [applyQEvent, Option.some_inj] at happ
      subst happ
      exact qInv_submit l h
  | begin i =>
      simp only [applyQEvent] at happ
      split at happ
      · rename_i hc
        rw [Option.some_inj] at happ
        subst happ
        exact qInv_begin l i h hc
      · cases happ
  | finish i =>
      simp only [applyQEvent] at happ
      split at happ
      · rename_i hc
        rw [Option.some_inj] at happ
        subst happ
        exact qInv_finish l i h (by simpa using hc)
      · cases happ

lemma qInv_foldlM (events : List QEvent) :
    ∀ (acc l : QState), QMono acc ∧ QUniq acc →
      List.foldlM applyQEvent acc events = some l → QMono l ∧ QUniq l := by
  induction events with
  | nil =>
      intro acc l h hfold
      simp only [List.foldlM_nil] at hfold
      cases hfold
      exact h
  | cons e rest ih =>
      intro acc l h hfold
      simp only [List.foldlM_cons] at hfold
      rcases Option.bind_eq_some.mp hfold with ⟨acc', happ, hrest⟩
      exact ih acc' l (qInv_apply acc e acc' h happ) hrest

lemma qInv_runQ (events : List QEvent) (l : QState) (h : runQ events = some l) :
    QMono l ∧ QUniq l := by
  refine qInv_foldlM events [] l ⟨?_, ?_⟩ h
  · intro i j a b _ ha _
    simp at ha
  · intro i j ha _
    simp at ha

/-- **C2.** For every interleaving of lifecycle tasks submitted
through `runLifecycleTask` (the queue shared by `start`, `stop` and
`restart`), no two tasks ever execute concurrently — at most one task
is in its running window at any reachable state — and a task
submitted later (e.g. a `stop` issued while a `start` is in flight)
begins only after every earlier-submitted task has fully finished
(spawned or failed). -/
theorem processManager_lifecycle_serialized :
    ∀ (events : List QEvent) (l : QState), runQ events = some l →
      (∀ i j : Nat, l[i]? = some .running → l[j]? = some .running → i = j) ∧
      (∀ (i j : Nat) (a : TaskStatus), i < j → l[j]? = some .running →
        l[i]? = some a → a = .done) := by
  intro events l h
  obtain ⟨hm, hu⟩ := qInv_runQ events l h
  refine ⟨hu, ?_⟩
  intro i j a hij hj hi
  have hstage := hm i j a .running (by omega) hi hj
  cases a with
  | pending => simp [toStage] at hstage
  | running => exact absurd (hu i j hi hj) (by omega)
  | done => rfl

/-- Witness for C2: two submitted tasks; the second begins only after
the first finished, and the final state has a single running task. -/
theorem processManager_lifecycle_serialized_witness :
    runQ [.submit, .submit, .begin 0, .finish 0, .begin 1] =
      some [.done, .running] ∧
    (∀ i j : Nat, [TaskStatus.done, TaskStatus.running][i]? = some .running →
      [TaskStatus.done, TaskStatus.running][j]? = some .running → i = j) := by
  refine ⟨by rfl, ?_⟩
  exact (processManager_lifecycle_serialized
    [.submit, .submit, .begin 0, .finish 0, .begin 1]
    [.done, .running] (by rfl)).1

/-! ### Readiness orchestrator de-duplication (C1) -/

lemma ensInv_apply (s s' : EnsState) (e : EnsEvent)
    (hne : ∀ ok : Bool, e ≠ .settle ok)
    (h : EnsInv s) (happ : applyEns s e = some s') : EnsInv s' := by
  cases e with
  | enter =>
      cases hrun : s.running with
      | true => simp [applyEns, hrun] at happ
      | false =>
          cases hph : s.phase with
          | idle =>
              simp only [applyEns, hrun, hph, Bool.false_eq_true, if_false,
                Option.some_inj] at happ
              subst happ
              rcases h with ⟨h1, h2, h3, h4, h5, h6, h7⟩ | ⟨h1, h2, h3⟩
              · right
                refine ⟨?_, ?_, Or.inl ⟨rfl, ?_, ?_, rfl⟩⟩
                · show s.attempts + 1 = 1
                  omega
                · show s.enters + 1 = s.joined + 1
                  omega
                · exact h5
                · exact h6
              · rcases h3 with ⟨hp, -⟩ | ⟨hp, -⟩ | ⟨hp, -⟩ <;>
                  (rw [hph] at hp; cases hp)
          | prepPending =>
              simp only [applyEns, hrun, hph, Bool.false_eq_true, if_false,
                Option.some_inj] at happ
              subst happ
              rcases h with ⟨h1, -⟩ | ⟨h1, h2, h3⟩
              · rw [hph] at h1; cases h1
              · right
                refine ⟨h1, ?_, ?_⟩
                · show s.enters + 1 = s.joined + 1 + 1
                  omega
                · rcases h3 with ⟨hp, hq, hr, hs⟩ | ⟨hp, -⟩ | ⟨hp, -⟩
                  · exact Or.inl ⟨rfl, hq, hr, rfl⟩
                  · rw [hph] at hp; cases hp
                  · rw [hph] at hp; cases hp
          | spawnPending =>
              simp only [applyEns, hrun, hph, Bool.false_eq_true, if_false,
                Option.some_inj] at happ
              subst happ
              rcases h with ⟨h1, -⟩ | ⟨h1, h2, h3⟩
              · rw [hph] at h1; cases h1
              · right
                refine ⟨h1, ?_, ?_⟩
                · show s.enters + 1 = s.joined + 1 + 1
                  omega
                · rcases h3 with ⟨hp, -⟩ | ⟨hp, hq, hr, hs⟩ | ⟨hp, -⟩
                  · rw [hph] at hp; cases hp
                  · exact Or.inr (Or.inl ⟨rfl, hq, hr, rfl⟩)
                  · rw [hph] at hp; cases hp
          | healthPending =>
              simp only [applyEns, hrun, hph, Bool.false_eq_true, if_false,
                Option.some_inj] at happ
              subst happ
              rcases h with ⟨h1, -⟩ | ⟨h1, h2, h3⟩
              · rw [hph] at h1; cases h1
              · rcases h3 with ⟨hp, -⟩ | ⟨hp, -⟩ | ⟨-, -, -, hs⟩
                · rw [hph] at hp; cases hp
                · rw [hph] at hp; cases hp
                · rw [hrun] at hs; cases hs
  | enterWarm =>
      cases hrun : s.running with
      | false => simp [applyEns, hrun] at happ
      | true =>
          simp only [applyEns, hrun, if_true, Option.some_inj] at happ
          subst happ
          rcases h with ⟨-, -, -, -, -, -, h7⟩ | ⟨h1, h2, h3⟩
          · rw [hrun] at h7; cases h7
          · right
            refine ⟨h1, h2, ?_⟩
            rcases h3 with ⟨-, -, -, hs⟩ | ⟨-, -, -, hs⟩ | ⟨hp, hq, hr, -⟩
            · rw [hrun] at hs; cases hs
            · rw [hrun] at hs; cases hs
            · exact Or.inr (Or.inr ⟨hp, hq, hr, rfl⟩)
  | prep =>
      cases hph : s.phase with
      | prepPending =>
          simp only [applyEns, hph, Option.some_inj] at happ
          subst happ
          rcases h with ⟨h1, -⟩ | ⟨h1, h2, h3⟩
          · rw [hph] at h1; cases h1
          · rcases h3 with ⟨hp, hq, hr, hs⟩ | ⟨hp, -⟩ | ⟨hp, -⟩
            · right
              refine ⟨h1, h2, Or.inr (Or.inl ⟨rfl, ?_, hr, hs⟩)⟩
              show s.preps + 1 = 1
              omega
            · rw [hph] at hp; cases hp
            · rw [hph] at hp; cases hp
      | idle => simp [applyEns, hph] at happ
      | spawnPending => simp [applyEns, hph] at happ
      | healthPending => simp [applyEns, hph] at happ
  | spawnE =>
      cases hph : s.phase with
      | spawnPending =>
          simp only [applyEns, hph, Option.some_inj] at happ
          subst happ
          rcases h with ⟨h1, -⟩ | ⟨h1, h2, h3⟩
          · rw [hph] at h1; cases h1
          · rcases h3 with ⟨hp, -⟩ | ⟨hp, hq, hr, hs⟩ | ⟨hp, -⟩
            · rw [hph] at hp; cases hp
            · right
              refine ⟨h1, h2, Or.inr (Or.inr ⟨rfl, hq, ?_, rfl⟩)⟩
              show s.spawns + 1 = 1
              omega
            · rw [hph] at hp; cases hp
      | idle => simp [applyEns, hph] at happ
      | prepPending => simp [applyEns, hph] at happ
      | healthPending => simp [applyEns, hph] at happ
  | settle ok => exact absurd rfl (hne ok)

lemma ensInv_foldlM (events : List EnsEvent) :
    ∀ acc s : EnsState, noSettle events = true → EnsInv acc →
      List.foldlM applyEns acc events = some s → EnsInv s := by
  induction events with
  | nil =>
      intro acc s _ h hfold
      simp only [List.foldlM_nil] at hfold
      cases hfold
      exact h
  | cons e rest ih =>
      intro acc s hns h hfold
      simp only [noSettle, List.all_cons, Bool.and_eq_true] at hns
      have hne : ∀ ok : Bool, e ≠ .settle ok := by
        intro ok heq
        subst heq
        simp at hns
      simp only [List.foldlM_cons] at hfold
      rcases Option.bind_eq_some.mp hfold with ⟨acc', happ, hrest⟩
      exact ih acc' s (by simpa [noSettle] using hns.2)
        (ensInv_apply acc acc' e hne h happ) hrest

lemma ensInv_runEns (events : List EnsEvent) (s : EnsState)
    (hns : noSettle events = true) (h : runEns events = some s) : EnsInv s := by
  refine ensInv_foldlM events initEns s hns ?_ h
  left
  exact ⟨rfl, rfl, rfl, rfl, rfl, rfl, rfl⟩

/-- **C1.** For every schedule of N `ensureServerReady()` calls
arriving while the worker is not running (cold start): at most one
environment preparation and at most one spawn occur, exactly one
attempt is installed in the `ensureServerPromise` guard, and every
caller after the first awaits that shared attempt; when the attempt
settles successfully it has performed exactly one preparation and one
spawn; the guard is cleared on settle (the `finally`) whether the
attempt succeeded or failed; and a call made after a failed attempt
(guard clear, worker not running) installs a fresh attempt rather
than replaying the stale rejection. -/
theorem ensureReady_cold_start_dedup :
    (∀ (events : List EnsEvent) (s : EnsState),
      noSettle events = true → runEns events = some s →
      s.preps ≤ 1 ∧ s.spawns ≤ 1 ∧
      (1 ≤ s.enters → s.attempts = 1 ∧ s.enters = s.joined + 1)) ∧
    (∀ (events : List EnsEvent) (s s' : EnsState),
      noSettle events = true → runEns events = some s →
      applyEns s (.settle true) = some s' →
      s'.attempts = 1 ∧ s'.preps = 1 ∧ s'.spawns = 1 ∧ s'.phase = .idle) ∧
    (∀ (s s' : EnsState) (ok : Bool),
      applyEns s (.settle ok) = some s' → s'.phase = .idle) ∧
    (∀ s : EnsState, s.phase = .idle → s.running = false →
      applyEns s .enter =
        some { s with
          phase := .prepPending, attempts := s.attempts + 1,
          enters := s.enters + 1 }) := by
  refine ⟨?_, ?_, ?_, ?_⟩
  · intro events s hns h
    have hinv := ensInv_runEns events s hns h
    rcases hinv with ⟨h1, h2, h3, h4, h5, h6, h7⟩ | ⟨h1, h2, h3⟩
    · refine ⟨by omega, by omega, ?_⟩
      intro hge
      omega
    · rcases h3 with ⟨-, hq, hr, -⟩ | ⟨-, hq, hr, -⟩ | ⟨-, hq, hr, -⟩ <;>
        exact ⟨by omega, by omega, fun _ => ⟨h1, h2⟩⟩
  · intro events s s' hns h hsettle
    have hinv := ensInv_runEns events s hns h
    simp only [applyEns] at hsettle
    split at hsettle
    · cases hsettle
    · rename_i hph
      rw [Option.some_inj] at hsettle
      subst hsettle
      rcases hinv with ⟨h1, -⟩ | ⟨h1, h2, h3⟩
      · rw [h1] at hph; cases hph
      · rcases h3 with ⟨hp, -⟩ | ⟨hp, -⟩ | ⟨hp, hq, hr, -⟩
        · rw [hp] at hph; cases hph
        · rw [hp] at hph; cases hph
        · exact ⟨h1, hq, hr, rfl⟩
    · rename_i hph
      split at hsettle
      · cases hsettle
      · simp at *
  · intro s s' ok hsettle
    simp only [applyEns] at hsettle
    split at hsettle
    · cases hsettle
    · rw [Option.some_inj] at hsettle
      subst hsettle
      rfl
    · split at hsettle
      · cases hsettle
      · rw [Option.some_inj] at hsettle
        subst hsettle
        rfl
  · intro s hidle hrun
    simp only [applyEns]
    rw [if_neg (by rw [hrun]; exact Bool.false_ne_true)]
    rw [hidle]

/-- Witness for C1: three concurrent cold callers, one shared attempt
that preps, spawns and settles successfully. -/
theorem ensureReady_cold_start_dedup_witness :
    noSettle [.enter, .enter, .enter, .prep, .spawnE] = true ∧
    ∃ s : EnsState,
      runEns [.enter, .enter, .enter, .prep, .spawnE] = some s ∧
      s.preps ≤ 1 ∧ s.spawns ≤ 1 ∧
      (1 ≤ s.enters → s.attempts = 1 ∧ s.enters = s.joined + 1) := by
  refine ⟨by decide, ?_⟩
  rcases hrun : runEns [.enter, .enter, .enter, .prep, .spawnE] with - | s
  · exact absurd hrun (by decide)
  · exact ⟨s, rfl, ensureReady_cold_start_dedup.1
      [.enter, .enter, .enter, .prep, .spawnE] s (by decide) hrun⟩

/-! ### Process supervisor: restart budget (C4) -/

/-- **C4.** For every process exit not caused by a deliberate stop:
uptime of at least `HEALTHY_UPTIME_MS` (30 s) resets the restart
counter (and exhausted flag) before the restart decision; a granted
automatic restart consumes exactly one unit of budget; when the
counter has reached `maxRestarts`, the budget is marked exhausted,
the terminal `max-restarts` signal is emitted, and no restart is
scheduled; while the budget stays exhausted a further crash schedules
no restart and emits nothing more; and an explicit
`resetCrashCounter` clears both the counter and the exhausted flag.
End-to-end over `onExit`: a healthy-uptime crash with restart-on-crash
enabled and positive budget schedules a restart with the counter at 1
(reset then consumed), while a crash in the exhausted state schedules
nothing. -/
theorem processManager_restart_budget :
    (∀ (s : PMState) (uptime : Nat), HEALTHY_UPTIME_MS ≤ uptime →
      (healthyUptimeReset s uptime).restarts = 0 ∧
      (healthyUptimeReset s uptime).restartBudgetExhausted = false) ∧
    (∀ (cfg : PMConfig) (s : PMState) (r : String),
      s.restartBudgetExhausted = false → s.restarts < cfg.maxRestarts →
      consumeRestartBudget cfg s r = (true, { s with restarts := s.restarts + 1 })) ∧
    (∀ (cfg : PMConfig) (s : PMState) (r : String),
      s.restartBudgetExhausted = false → cfg.maxRestarts ≤ s.restarts →
      (consumeRestartBudget cfg s r).1 = false ∧
      (consumeRestartBudget cfg s r).2.restartBudgetExhausted = true ∧
      (consumeRestartBudget cfg s r).2.maxRestartsEmitted = s.maxRestartsEmitted + 1 ∧
      (exitCrashDecision cfg (consumeRestartBudget cfg s r).2).2 = false) ∧
    (∀ (cfg : PMConfig) (s : PMState) (r : String),
      s.restartBudgetExhausted = true →
      consumeRestartBudget cfg s r = (false, s) ∧
      (exitCrashDecision cfg s).2 = false ∧
      (exitCrashDecision cfg s).1.maxRestartsEmitted = s.maxRestartsEmitted) ∧
    (∀ s : PMState, (resetCrashCounter s).restarts = 0 ∧
      (resetCrashCounter s).restartBudgetExhausted = false) ∧
    (∀ (cfg : PMConfig) (s : PMState) (p uptime : Nat),
      s.proc = some p → s.alive = [p] → s.stopping = false →
      HEALTHY_UPTIME_MS ≤ uptime → cfg.restartOnCrash = true →
      0 < cfg.maxRestarts →
      (onExit cfg s p uptime).2 = true ∧ (onExit cfg s p uptime).1.restarts = 1) ∧
    (∀ (cfg : PMConfig) (s : PMState) (p uptime : Nat),
      s.proc = some p → s.alive = [p] → s.stopping = false →
      uptime < HEALTHY_UPTIME_MS → s.restartBudgetExhausted = true →
      (onExit cfg s p uptime).2 = false ∧
      (onExit cfg s p uptime).1.restartBudgetExhausted = true ∧
      (onExit cfg s p uptime).1.maxRestartsEmitted = s.maxRestartsEmitted) := by
  refine ⟨?_, ?_, ?_, ?_, ?_, ?_, ?_⟩
  · intro s uptime h
    unfold healthyUptimeReset
    rw [if_pos h]
    exact ⟨rfl, rfl⟩
  · intro cfg s r hex hlt
    unfold consumeRestartBudget
    rw [if_neg (by rw [hex]; exact Bool.false_ne_true)]
    rw [if_neg (by omega)]
  · intro cfg s r hex hge
    unfold consumeRestartBudget
    rw [if_neg (by rw [hex]; exact Bool.false_ne_true), if_pos hge]
    refine ⟨rfl, rfl, rfl, ?_⟩
    unfold exitCrashDecision
    split
    · unfold consumeRestartBudget
      simp
    · rfl
  · intro cfg s r hex
    have h1 : consumeRestartBudget cfg s r = (false, s) := by
      unfold consumeRestartBudget
      rw [if_pos hex]
    refine ⟨h1, ?_, ?_⟩
    · unfold exitCrashDecision
      split
      · rw [consumeRestartBudget]
        simp [hex]
      · rfl
    · unfold exitCrashDecision
      split
      · rw [consumeRestartBudget]
        simp [hex]
      · rfl
  · intro s
    exact ⟨rfl, rfl⟩
  · intro cfg s p uptime hp halive hstop hup hrc hmax
    have hmem : p ∈ s.alive := by rw [halive]; simp
    have h0 : ¬ (0 ≥ cfg.maxRestarts) := by omega
    simp only [onExit, healthyUptimeReset, exitCrashDecision, consumeRestartBudget]
    simp [hmem, hp, hstop, hup, hrc, h0]
  · intro cfg s p uptime hp halive hstop hup hex
    have hmem : p ∈ s.alive := by rw [halive]; simp
    have hnup : ¬ (uptime ≥ HEALTHY_UPTIME_MS) := by omega
    by_cases hc : cfg.restartOnCrash
    · simp only [onExit, healthyUptimeReset, exitCrashDecision, consumeRestartBudget]
      simp [hmem, hp, hstop, hnup, hex, hc]
    · simp only [onExit, healthyUptimeReset, exitCrashDecision, consumeRestartBudget]
      simp [hmem, hp, hstop, hnup, hex, hc]

/-- Witness for C4 at concrete states. -/
theorem processManager_restart_budget_witness :
    (healthyUptimeReset { initPM with restarts := 2 } 40000).restarts = 0 ∧
    consumeRestartBudget { restartOnCrash := true, maxRestarts := 3 }
      initPM "after crash" = (true, { initPM with restarts := 1 }) ∧
    (onExit { restartOnCrash := true, maxRestarts := 3 }
      { initPM with proc := some 0, alive := [0], restarts := 2 } 0 40000).2 = true := by
  refine ⟨?_, ?_, ?_⟩
  · exact (processManager_restart_budget.1 { initPM with restarts := 2 } 40000
      (by norm_num [HEALTHY_UPTIME_MS])).1
  · exact processManager_restart_budget.2.1
      { restartOnCrash := true, maxRestarts := 3 } initPM "after crash" rfl
      (by norm_num [initPM])
  · exact (processManager_restart_budget.2.2.2.2.2.1
      { restartOnCrash := true, maxRestarts := 3 }
      { initPM with proc := some 0, alive := [0], restarts := 2 } 0 40000
      rfl rfl rfl (by norm_num [HEALTHY_UPTIME_MS]) rfl (by norm_num)).1

/-- Witness for C10 at a concrete accepted configuration. -/
theorem resolvePortBinding_spec_witness :
    portConfigValid { port := 19280, proxyPort := none } = true ∧
    ∃ b : PortBinding,
      resolvePortBinding { port := 19280, proxyPort := none } = .ok b ∧
      (∀ pp, (none : Option Int) = some pp →
        b.mode = .legacyDualPort ∧ b.publicPort = pp ∧ b.serverPort = (19280 : Int)) ∧
      ((none : Option Int) = none →
        b.mode = .singlePort ∧ b.publicPort = (19280 : Int) ∧
        b.serverPort = (if (19280 : Int) = 65535 then 65534 else (19280 : Int) + 1)) ∧
      b.publicPort ≠ b.serverPort :=
  ⟨by decide, resolvePortBinding_spec { port := 19280, proxyPort := none } (by decide)⟩

/-! ### Health checker concurrency (C5)

The spec claims concurrent `check()` calls share one in-flight probe
and that the periodic scheduler never overlaps probes.  The shipped
`HealthChecker` has no in-flight guard (`check()` calls `ping()`
unconditionally) and `start()` uses `setInterval`, so probes multiply
and overlap — contradicting both the spec and the repository's own
tests (`test/health.test.ts`: "check reuses the in-flight probe for
concurrent calls", "start schedules the next check only after the
previous one completes"). -/

lemma foldlM_checkCalls (m : Nat) : ∀ s0 : HCConc,
    List.foldlM applyHC s0 (List.replicate m .checkCall) =
      some (stepCheckCall^[m] s0) := by
  induction m with
  | zero =>
      intro s0
      simp [List.foldlM_nil]
  | succ n ih =>
      intro s0
      rw [List.replicate_succ, List.foldlM_cons]
      show (applyHC s0 .checkCall) >>= _ = _
      rw [show applyHC s0 .checkCall = some (stepCheckCall s0) from rfl]
      show List.foldlM applyHC (stepCheckCall s0) (List.replicate n .checkCall) = _
      rw [ih (stepCheckCall s0)]
      rw [Function.iterate_succ_apply]

lemma stepCheckCall_iterate_issued (m : Nat) : ∀ s0 : HCConc,
    (stepCheckCall^[m] s0).probesIssued = s0.probesIssued + m ∧
    (stepCheckCall^[m] s0).probesInFlight = s0.probesInFlight + m := by
  induction m with
  | zero => intro s0; simp
  | succ n ih =>
      intro s0
      rw [Function.iterate_succ_apply]
      have := ih (stepCheckCall s0)
      rcases this with ⟨h1, h2⟩
      rw [h1, h2]
      unfold stepCheckCall
      constructor <;> simp <;> omega

/-- **C5 (divergence).** `HealthChecker.check()` does not de-duplicate
concurrent invocations: M concurrent `check()` calls arriving while a
probe is in flight issue M network probes (one per call — the class
has no in-flight guard), and in particular two concurrent calls issue
2 probes with 2 probes simultaneously outstanding, not the single
shared probe the spec (and the repository's own health tests)
require. -/
theorem healthChecker_no_probe_dedup :
    (∀ m : Nat, ∃ s : HCConc,
      runHC (List.replicate m .checkCall) = some s ∧
      s.probesIssued = m ∧ s.probesInFlight = m) ∧
    (runHC [.checkCall, .checkCall, .probeSettle, .probeSettle] =
      some { probesIssued := 2, probesInFlight := 0, maxOverlap := 2 }) := by
  constructor
  · intro m
    refine ⟨stepCheckCall^[m]
      { probesIssued := 0, probesInFlight := 0, maxOverlap := 0 }, ?_, ?_, ?_⟩
    · exact foldlM_checkCalls m _
    · have := (stepCheckCall_iterate_issued m
        { probesIssued := 0, probesInFlight := 0, maxOverlap := 0 }).1
      simpa using this
    · have := (stepCheckCall_iterate_issued m
        { probesIssued := 0, probesInFlight := 0, maxOverlap := 0 }).2
      simpa using this
  · rfl

/-! ### Gateway empty-success guard (C7) -/

/-- **C7.** For every worker response with a success status
(< 300): the caller's response headers are deferred until the first
body byte (the action trace begins with `writeHead` immediately
followed by the first chunk only when a chunk exists); a response
that ends with zero bytes delivered yields a 502 JSON error (with
diagnostic detail), never an empty success; and whenever the success
status was sent, at least one body byte is delivered. -/
theorem proxy_defers_headers_and_rejects_empty_success :
    ∀ (statusCode : Nat) (chunks : List Nat),
      statusCode < 300 → (∀ c ∈ chunks, 0 < c) →
      (chunks = [] →
        forwardToUpstream statusCode chunks .endOk =
          [.writeHead 502, .endWithJson .emptyUpstream] ∧
        bytesWritten (forwardToUpstream statusCode chunks .endOk) = 0) ∧
      (∀ c rest, chunks = c :: rest →
        forwardToUpstream statusCode chunks .endOk =
          .writeHead statusCode :: .writeChunk c ::
            successActions statusCode rest .endOk true ∧
        firstWriteHead (forwardToUpstream statusCode chunks .endOk) =
          some statusCode ∧
        0 < bytesWritten (forwardToUpstream statusCode chunks .endOk)) ∧
      (firstWriteHead (forwardToUpstream statusCode chunks .endOk) =
          some statusCode →
        0 < bytesWritten (forwardToUpstream statusCode chunks .endOk)) := by
  intro statusCode chunks hlt hpos
  have hnot : ¬ (300 ≤ statusCode) := by omega
  refine ⟨?_, ?_, ?_⟩
  · intro hempty
    subst hempty
    unfold forwardToUpstream
    rw [if_neg hnot]
    exact ⟨rfl, rfl⟩
  · intro c rest hc
    subst hc
    unfold forwardToUpstream
    rw [if_neg hnot]
    refine ⟨rfl, rfl, ?_⟩
    have hcpos : 0 < c := hpos c (by simp)
    show 0 < bytesWritten (successActions statusCode (c :: rest) .endOk false)
    unfold successActions
    unfold bytesWritten
    unfold bytesWritten
    omega
  · intro hfirst
    cases chunks with
    | nil =>
        unfold forwardToUpstream at hfirst
        rw [if_neg hnot] at hfirst
        unfold successActions firstWriteHead at hfirst
        rw [Option.some_inj] at hfirst
        omega
    | cons c rest =>
        have hcpos : 0 < c := hpos c (by simp)
        unfold forwardToUpstream
        rw [if_neg hnot]
        unfold successActions
        unfold bytesWritten
        unfold bytesWritten
        omega

/-- Witness for C7 at a concrete success response. -/
theorem proxy_defers_headers_witness :
    forwardToUpstream 200 [] .endOk =
      [.writeHead 502, .endWithJson .emptyUpstream] ∧
    forwardToUpstream 200 [4096] .endOk =
      [.writeHead 200, .writeChunk 4096, .endRes] :=
  ⟨((proxy_defers_headers_and_rejects_empty_success 200 [] (by norm_num)
      (by intro c hc; cases hc)).1 rfl).1,
   by
    have h := ((proxy_defers_headers_and_rejects_empty_success 200 [4096]
      (by norm_num) (by intro c hc; simp at hc; omega)).2.1 4096 [] rfl).1
    rw [h]
    rfl⟩

/-! ### Readiness health-timeout paths (C8)

The claim says a health-timeout leaves the worker process running in
every case.  That holds only for the already-running path; the
cold-start path's `catch` block stops the just-spawned process
(`if (started) await procMgr.stop()`, index.ts 464-469). -/

/-- **C8 (counterexample).** A cold-start readiness attempt in which
the spawn succeeded but the bounded health poll timed out stops the
just-spawned worker (`stopCalled`), leaving it not running — the
claim's "the worker process is left running (not torn down)" fails on
the cold-start path. -/
theorem ensureReady_cold_timeout_tears_down :
    (ensureServerReadyRun true false true true false).timeoutError = true ∧
    (ensureServerReadyRun true false true true false).stopCalled = true ∧
    (ensureServerReadyRun true false true true false).procRunningAfter = false := by
  exact ⟨rfl, rfl, rfl⟩

/-! ### Secure output path resolver (C9) -/

/-- Filesystem monotonicity: every entry visible before is visible
after (the pipeline only creates directories at fresh paths). -/
def FsLe (fs fs' : Fs) : Prop :=
  ∀ (p : List String) (e : FsEntry), lstatFs fs p = some e → lstatFs fs' p = some e

lemma fsLe_refl (fs : Fs) : FsLe fs fs := fun _ _ h => h

lemma fsLe_trans {fs1 fs2 fs3 : Fs} (h1 : FsLe fs1 fs2) (h2 : FsLe fs2 fs3) :
    FsLe fs1 fs3 := fun p e h => h2 p e (h1 p e h)

lemma lstatFs_insert_self (fs : Fs) (p : List String) (e : FsEntry)
    (hp : p ≠ []) : lstatFs (insertEntry fs p e) p = some e := by
  unfold lstatFs insertEntry
  rw [if_neg hp]
  simp [List.find?_cons]

lemma lstatFs_insert_other (fs : Fs) (p q : List String) (e : FsEntry)
    (hq : q ≠ p) : lstatFs (insertEntry fs p e) q = lstatFs fs q := by
  unfold lstatFs insertEntry
  by_cases h0 : q = []
  · rw [if_pos h0, if_pos h0]
  · rw [if_neg h0, if_neg h0]
    have : ((p, e).1 = q) = False := by
      simp only [eq_iff_iff, iff_false]
      intro hc
      exact hq hc.symm
    simp [List.find?_cons, this]

lemma mkdirOne_le (fs fs' : Fs) (p : List String)
    (h : mkdirOne fs p = .ok fs') : FsLe fs fs' := by
  unfold mkdirOne at h
  cases hl : lstatFs fs p with
  | some e => rw [hl] at h; cases h
  | none =>
      rw [hl] at h
      cases hpar : lstatFs fs p.dropLast with
      | none => rw [hpar] at h; cases h
      | some pe =>
          rw [hpar] at h
          cases pe with
          | dir =>
              rw [Except.ok.injEq] at h
              subst h
              intro q e hq
              have hqp : q ≠ p := by
                intro hc
                rw [hc, hl] at hq
                cases hq
              rw [lstatFs_insert_other fs p q .dir hqp]
              exact hq
          | file => cases h
          | symlink t => cases h
          | other => cases h

lemma ensureSegments_le (segs : List String) : ∀ (fs fs' : Fs) (cur : List String),
    ensureSegments fs cur segs = .ok fs' → FsLe fs fs' := by
  induction segs with
  | nil =>
      intro fs fs' cur h
      unfold ensureSegments at h
      rw [Except.ok.injEq] at h
      subst h
      exact fsLe_refl fs
  | cons seg rest ih =>
      intro fs fs' cur h
      unfold ensureSegments at h
      dsimp only at h
      cases hmk : mkdirOne fs (cur ++ [seg]) with
      | ok fsA =>
          rw [hmk] at h
          dsimp only at h
          exact fsLe_trans (mkdirOne_le fs fsA (cur ++ [seg]) hmk)
            (ih fsA fs' (cur ++ [seg]) h)
      | error e =>
          rw [hmk] at h
          dsimp only at h
          by_cases he : e = "EEXIST"
          · rw [if_pos he] at h
            cases hl : lstatFs fs (cur ++ [seg]) with
            | none => rw [hl] at h; cases h
            | some fe =>
                rw [hl] at h
                cases fe with
                | dir => exact ih fs fs' (cur ++ [seg]) h
                | file => cases h
                | symlink t => cases h
                | other => cases h
          · rw [if_neg he] at h
            cases h

lemma mkdirRecAux_le (segs : List String) : ∀ (fs fs' : Fs) (built : List String),
    mkdirRecAux fs built segs = .ok fs' → FsLe fs fs' := by
  induction segs with
  | nil =>
      intro fs fs' built h
      unfold mkdirRecAux at h
      rw [Except.ok.injEq] at h
      subst h
      exact fsLe_refl fs
  | cons seg rest ih =>
      intro fs fs' built h
      unfold mkdirRecAux at h
      dsimp only at h
      cases hl : lstatFs fs (built ++ [seg]) with
      | some fe =>
          rw [hl] at h
          cases fe with
          | dir => exact ih fs fs' (built ++ [seg]) h
          | file => cases h
          | symlink t => cases h
          | other => cases h
      | none =>
          rw [hl] at h
          dsimp only at h
          refine fsLe_trans ?_ (ih _ fs' (built ++ [seg]) h)
          intro q e hq
          have hqp : q ≠ built ++ [seg] := by
            intro hc
            rw [hc, hl] at hq
            cases hq
          rw [lstatFs_insert_other fs (built ++ [seg]) q .dir hqp]
          exact hq

lemma ensureSegments_dirs (segs : List String) : ∀ (fs fs' : Fs) (cur : List String),
    ensureSegments fs cur segs = .ok fs' →
    ∀ k, 0 < k → k ≤ segs.length →
      lstatFs fs' (cur ++ segs.take k) = some .dir := by
  induction segs with
  | nil =>
      intro fs fs' cur _ k hk hk'
      simp at hk'
      omega
  | cons seg rest ih =>
      intro fs fs' cur h k hk hk'
      unfold ensureSegments at h
      dsimp only at h
      cases hmk : mkdirOne fs (cur ++ [seg]) with
      | ok fsA =>
          rw [hmk] at h
          dsimp only at h
          have hA : lstatFs fsA (cur ++ [seg]) = some .dir := by
            unfold mkdirOne at hmk
            cases hl : lstatFs fs (cur ++ [seg]) with
            | some e => rw [hl] at hmk; cases hmk
            | none =>
                rw [hl] at hmk
                cases hpar : lstatFs fs (cur ++ [seg]).dropLast with
                | none => rw [hpar] at hmk; cases hmk
                | some pe =>
                    rw [hpar] at hmk
                    cases pe with
                    | dir =>
                        rw [Except.ok.injEq] at hmk
                        subst hmk
                        exact lstatFs_insert_self fs (cur ++ [seg]) .dir (by simp)
                    | file => cases hmk
                    | symlink t => cases hmk
                    | other => cases hmk
          cases k with
          | zero => omega
          | succ j =>
              cases j with
              | zero =>
                  simp only [List.take_succ_cons, List.take_zero]
                  exact ensureSegments_le rest fsA fs' (cur ++ [seg]) h
                    (cur ++ [seg]) .dir hA
              | succ j' =>
                  have := ih fsA fs' (cur ++ [seg]) h (j' + 1) (by omega)
                    (by simp at hk'; omega)
                  simpa [List.take_succ_cons, List.append_assoc] using this
      | error e =>
          rw [hmk] at h
          dsimp only at h
          by_cases he : e = "EEXIST"
          · rw [if_pos he] at h
            cases hl : lstatFs fs (cur ++ [seg]) with
            | none => rw [hl] at h; cases h
            | some fe =>
                rw [hl] at h
                cases fe with
                | dir =>
                    cases k with
                    | zero => omega
                    | succ j =>
                        cases j with
                        | zero =>
                            simp only [List.take_succ_cons, List.take_zero]
                            exact ensureSegments_le rest fs fs' (cur ++ [seg]) h
                              (cur ++ [seg]) .dir hl
                        | succ j' =>
                            have := ih fs fs' (cur ++ [seg]) h (j' + 1) (by omega)
                              (by simp at hk'; omega)
                            simpa [List.take_succ_cons, List.append_assoc] using this
                | file => cases h
                | symlink t => cases h
                | other => cases h
          · rw [if_neg he] at h
            cases h

/-- **C9.** For every caller-supplied output path: a successful
resolution returns a path contained in one of the allowed roots
(found by `selectAllowedRoot`), with the parent chain between root
and parent consisting solely of directories in the resulting
filesystem (existing symlink/non-directory segments are rejected,
missing ones created), the real (symlink-free) path of the parent
re-verified to lie within the root's real path, and the existing
target (if any) a regular file — never a symlink or directory; an
undefined input resolves to the time-stamped `.mp3` default under the
scratch root; and a path resolving outside all allowed roots is
rejected with the containment error. -/
theorem resolveSecureOutputPath_spec :
    (∀ (opts : OutputPathOptions) (fs : Fs) (t : List String) (fs' : Fs),
      resolveSecureOutputPath none opts fs = .ok (t, fs') →
      t = normAbsSegs (strSegs opts.tmpDir ++
        strSegs ("mlx-audio-" ++ toString opts.now ++ ".mp3"))) ∧
    (∀ (input : Option String) (opts : OutputPathOptions) (fs : Fs)
        (t : List String) (fs' : Fs),
      resolveSecureOutputPath input opts fs = .ok (t, fs') →
      (∃ root, root ∈ getAllowedRoots opts ∧ isPathWithin root t = true ∧
        (∃ rr pr, realpathFs fs' root = some rr ∧
          realpathFs fs' t.dropLast = some pr ∧ isPathWithin rr pr = true) ∧
        (∀ k, 0 < k → k ≤ (relativeSegs root t.dropLast).length →
          lstatFs fs' (root ++ (relativeSegs root t.dropLast).take k) = some .dir)) ∧
      (lstatFs fs' t = none ∨ lstatFs fs' t = some .file)) ∧
    (∀ (input : Option String) (opts : OutputPathOptions) (fs : Fs)
        (t : List String),
      resolveOutputPath input opts = .ok t →
      (getAllowedRoots opts).all (fun r => !(isPathWithin r t)) = true →
      resolveSecureOutputPath input opts fs =
        .error ("outputPath must be under " ++ opts.tmpDir ++ " or " ++
          opts.outputDir)) := by
  refine ⟨?_, ?_, ?_⟩
  · intro opts fs t fs' h
    unfold resolveSecureOutputPath at h
    cases hro : resolveOutputPath none opts with
    | error e => rw [hro] at h; cases h
    | ok target =>
        rw [hro] at h
        dsimp only at h
        have htarget : target = normAbsSegs (strSegs opts.tmpDir ++
            strSegs ("mlx-audio-" ++ toString opts.now ++ ".mp3")) := by
          unfold resolveOutputPath at hro
          rw [Except.ok.injEq] at hro
          exact hro.symm
        cases hsel : selectAllowedRoot target opts with
        | error e => rw [hsel] at h; cases h
        | ok root =>
            rw [hsel] at h
            dsimp only at h
            cases hens : ensureSafeDirectoryTree fs root target.dropLast with
            | error e => rw [hens] at h; cases h
            | ok fs1 =>
                rw [hens] at h
                dsimp only at h
                cases hreal : assertRealPathWithinRoot fs1 root target.dropLast with
                | error e => rw [hreal] at h; cases h
                | ok u =>
                    rw [hreal] at h
                    dsimp only at h
                    cases hsafe : assertTargetIsSafe fs1 target with
                    | error e => rw [hsafe] at h; cases h
                    | ok u' =>
                        rw [hsafe] at h
                        dsimp only at h
                        rw [Except.ok.injEq, Prod.mk.injEq] at h
                        rw [← h.1]
                        exact htarget
  · intro input opts fs t fs' h
    unfold resolveSecureOutputPath at h
    cases hro : resolveOutputPath input opts with
    | error e => rw [hro] at h; cases h
    | ok target =>
        rw [hro] at h
        dsimp only at h
        cases hsel : selectAllowedRoot target opts with
        | error e => rw [hsel] at h; cases h
        | ok root =>
            rw [hsel] at h
            dsimp only at h
            cases hens : ensureSafeDirectoryTree fs root target.dropLast with
            | error e => rw [hens] at h; cases h
            | ok fs1 =>
                rw [hens] at h
                dsimp only at h
                cases hreal : assertRealPathWithinRoot fs1 root target.dropLast with
                | error e => rw [hreal] at h; cases h
                | ok u =>
                    rw [hreal] at h
                    dsimp only at h
                    cases hsafe : assertTargetIsSafe fs1 target with
                    | error e => rw [hsafe] at h; cases h
                    | ok u' =>
                        rw [hsafe] at h
                        dsimp only at h
                        rw [Except.ok.injEq, Prod.mk.injEq] at h
                        obtain ⟨ht, hfs⟩ := h
                        subst ht
                        subst hfs
                        have hfind :
                            (getAllowedRoots opts).find?
                              (fun r => isPathWithin r target) = some root := by
                          unfold selectAllowedRoot at hsel
                          cases hf : (getAllowedRoots opts).find?
                              (fun r => isPathWithin r target) with
                          | none => rw [hf] at hsel; cases hsel
                          | some r =>
                              rw [hf] at hsel
                              dsimp only at hsel
                              rw [Except.ok.injEq] at hsel
                              rw [hsel]
                        have hmem : root ∈ getAllowedRoots opts :=
                          List.mem_of_find?_eq_some hfind
                        have hwithin : isPathWithin root target = true := by
                          have := List.find?_some hfind
                          simpa using this
                        refine ⟨⟨root, hmem, hwithin, ?_, ?_⟩, ?_⟩
                        · unfold assertRealPathWithinRoot at hreal
                          cases hr1 : realpathFs fs1 root with
                          | none => rw [hr1] at hreal; cases hreal
                          | some rr =>
                              rw [hr1] at hreal
                              dsimp only at hreal
                              cases hr2 : realpathFs fs1 target.dropLast with
                              | none => rw [hr2] at hreal; cases hreal
                              | some pr =>
                                  rw [hr2] at hreal
                                  dsimp only at hreal
                                  refine ⟨rr, pr, rfl, rfl, ?_⟩
                                  by_cases hw : isPathWithin rr pr
                                  · exact hw
                                  · rw [if_neg hw] at hreal; cases hreal
                        · unfold ensureSafeDirectoryTree at hens
                          cases hmkr : mkdirRecursive fs root with
                          | error e => rw [hmkr] at hens; cases hens
                          | ok fsA =>
                              rw [hmkr] at hens
                              try dsimp only at hens
                              cases hst : statFs fsA root with
                              | none => rw [hst] at hens; cases hens
                              | some se =>
                                  rw [hst] at hens
                                  try dsimp only at hens
                                  cases se with
                                  | dir =>
                                      cases hrel : relativeSegs root target.dropLast with
                                      | nil =>
                                          intro k hk hk'
                                          simp at hk'
                                          omega
                                      | cons first rest =>
                                          rw [hrel] at hens
                                          try dsimp only at hens
                                          by_cases hdd : strStartsWithDotDot first
                                          · rw [if_pos hdd] at hens; cases hens
                                          · rw [if_neg hdd] at hens
                                            intro k hk hk'
                                            exact ensureSegments_dirs
                                              (first :: rest) fsA fs1 root hens
                                              k hk hk'
                                  | file => cases hens
                                  | symlink tg => cases hens
                                  | other => cases hens
                        · unfold assertTargetIsSafe at hsafe
                          cases hl : lstatFs fs1 target with
                          | none => exact Or.inl rfl
                          | some fe =>
                              rw [hl] at hsafe
                              cases fe with
                              | dir => cases hsafe
                              | file => exact Or.inr rfl
                              | symlink tg => cases hsafe
                              | other => cases hsafe
  · intro input opts fs t hro hall
    unfold resolveSecureOutputPath
    rw [hro]
    have hfind : (getAllowedRoots opts).find?
        (fun r => isPathWithin r t) = none := by
      rw [List.find?_eq_none]
      intro r hr
      have := (List.all_eq_true.mp hall) r hr
      simp only [Bool.not_eq_true'] at this
      simp [this]
    unfold selectAllowedRoot
    dsimp only
    rw [hfind]

/-- Witness for C9: the undefined-input default under `/tmp`, the
spec's `~/../../etc/passwd` traversal rejection, and a symlinked
parent segment rejection, on a concrete filesystem. -/
theorem resolveSecureOutputPath_spec_witness :
    (resolveSecureOutputPath none
        { tmpDir := "/tmp", systemTmpDir := "/tmp",
          outputDir := "/Users/u/.openclaw/mlx-audio/outputs",
          homeDir := "/Users/u", now := 123 }
        ⟨[(["tmp"], .dir)]⟩ =
      .ok (["tmp", "mlx-audio-123.mp3"], ⟨[(["tmp"], .dir)]⟩)) ∧
    (["tmp", "mlx-audio-123.mp3"] = normAbsSegs (strSegs "/tmp" ++
      strSegs ("mlx-audio-" ++ toString (123 : Nat) ++ ".mp3"))) ∧
    (resolveSecureOutputPath (some "~/../../etc/passwd")
        { tmpDir := "/tmp", systemTmpDir := "/tmp",
          outputDir := "/Users/u/.openclaw/mlx-audio/outputs",
          homeDir := "/Users/u", now := 123 }
        ⟨[(["tmp"], .dir)]⟩ =
      .error "outputPath must be under /tmp or /Users/u/.openclaw/mlx-audio/outputs") ∧
    (resolveSecureOutputPath (some "/tmp/evil/x.mp3")
        { tmpDir := "/tmp", systemTmpDir := "/tmp",
          outputDir := "/Users/u/.openclaw/mlx-audio/outputs",
          homeDir := "/Users/u", now := 123 }
        ⟨[(["tmp"], .dir), (["tmp", "evil"], .symlink "/outside")]⟩ =
      .error "outputPath contains a symbolic link segment") := by
  refine ⟨by rfl, ?_, ?_, by rfl⟩
  · exact resolveSecureOutputPath_spec.1
      { tmpDir := "/tmp", systemTmpDir := "/tmp",
        outputDir := "/Users/u/.openclaw/mlx-audio/outputs",
        homeDir := "/Users/u", now := 123 }
      ⟨[(["tmp"], .dir)]⟩ ["tmp", "mlx-audio-123.mp3"] ⟨[(["tmp"], .dir)]⟩
      (by rfl)
  · exact resolveSecureOutputPath_spec.2.2 (some "~/../../etc/passwd")
      { tmpDir := "/tmp", systemTmpDir := "/tmp",
        outputDir := "/Users/u/.openclaw/mlx-audio/outputs",
        homeDir := "/Users/u", now := 123 }
      ⟨[(["tmp"], .dir)]⟩ ["etc", "passwd"] (by rfl) (by rfl)

/-- **C8 (amended).** A health-timeout on the already-running path
(worker existed before the call) leaves the worker running — no stop
is issued — and since the worker is still running, the next
`ensureReady()` call takes the already-running path again and
re-probes; whereas a cold-start health-timeout (worker spawned by
this very attempt) stops the just-spawned process. -/
theorem ensureReady_health_timeout_paths :
    (∀ prepOk spawnOk healthOk : Bool,
      (ensureServerReadyRun true true prepOk spawnOk healthOk).stopCalled = false ∧
      (ensureServerReadyRun true true prepOk spawnOk healthOk).procRunningAfter = true ∧
      (ensureServerReadyRun true true prepOk spawnOk healthOk).polled = true) ∧
    ((ensureServerReadyRun true false true true false).stopCalled = true ∧
      (ensureServerReadyRun true false true true false).procRunningAfter = false) := by
  constructor
  · intro prepOk spawnOk healthOk
    cases healthOk <;> exact ⟨rfl, rfl, rfl⟩
  · exact ⟨rfl, rfl⟩

end MlxAudio
